import Mathlib

/-!
Verification of the utf8_ansi_cpp encoding-conversion library (src/library.cpp)
against its natural-language specification.

The library is a thin wrapper over the ICU conversion engine.  We embed the
wrapper code itself faithfully: the overflow-safe size arithmetic, the RAII
converter-handle acquisition (with C++ semantics: a constructor that throws
after acquiring the raw handle does not run the destructor), the two-pass
preflight-then-convert implementation, and the streaming `ucnv_convertEx`
loop with dynamic output growth.  The engine is a black box, modelled as a
structure of abstract functions; engine interactions are recorded in an
event trace so that claims of the form "before any engine interaction" or
"released exactly once" are statable.
-/

deriving instance DecidableEq for Except

/-- Error taxonomy of the library (spec section 7).  Each C++ throw site in
src/library.cpp maps to exactly one kind: `std::invalid_argument` for null
input, and the distinct `std::runtime_error` messages for the rest. -/
inductive Err
  | NullInput
  | UnknownEncoding
  | ConfigurationFailed
  | DecodeFailed
  | EncodeFailed
  | StreamConversionFailed
  | SizeExceeded
  | SizeOverflow
  deriving DecidableEq, Repr

/-- Maximum value of ICU's signed 32-bit length parameter type. -/
def INT32_MAX : Nat := 2 ^ 31 - 1

/-- Maximum value of the platform's unsigned `std::size_t` (64-bit). -/
def SIZE_MAX : Nat := 2 ^ 64 - 1

/-- src/library.cpp line 20: narrow a `size_t` to ICU's `int32_t`, throwing
when the value exceeds `INT32_MAX`. -/
def safe_size_to_int32 (size : Nat) : Except Err Nat :=
  if size > INT32_MAX then .error .SizeExceeded else .ok size

/-- src/library.cpp line 32: overflow-checked `size_t` multiplication.
The C++ guard is `a != 0 && b > SIZE_MAX / a`. -/
def safe_multiply (a b : Nat) : Except Err Nat :=
  if a ≠ 0 ∧ SIZE_MAX / a < b then .error .SizeOverflow else .ok (a * b)

/-- src/library.cpp line 43: overflow-checked `size_t` addition.
The C++ guard is `a > SIZE_MAX - b`. -/
def safe_add (a b : Nat) : Except Err Nat :=
  if SIZE_MAX - b < a then .error .SizeOverflow else .ok (a + b)

/-- C7: the size arithmetic is pure and exact.  `safe_size_to_int32` fails
with `SizeExceeded` iff the size exceeds `2^31 - 1` and otherwise returns the
same value; `safe_multiply` fails with `SizeOverflow` iff the mathematical
product exceeds `SIZE_MAX` and otherwise returns the exact product;
`safe_add` fails with `SizeOverflow` iff the mathematical sum exceeds
`SIZE_MAX` and otherwise returns the exact sum (the addend `b` is a `size_t`
value, hence bounded by `SIZE_MAX`). -/
theorem c7_size_arithmetic_exact (s a b : Nat) (hb : b ≤ SIZE_MAX) :
    (safe_size_to_int32 s = .error .SizeExceeded ↔ INT32_MAX < s)
    ∧ (INT32_MAX < s ∨ safe_size_to_int32 s = .ok s)
    ∧ (safe_multiply a b = .error .SizeOverflow ↔ SIZE_MAX < a * b)
    ∧ (SIZE_MAX < a * b ∨ safe_multiply a b = .ok (a * b))
    ∧ (safe_add a b = .error .SizeOverflow ↔ SIZE_MAX < a + b)
    ∧ (SIZE_MAX < a + b ∨ safe_add a b = .ok (a + b)) := by
  have hmul : (a ≠ 0 ∧ SIZE_MAX / a < b) ↔ SIZE_MAX < a * b := by
    constructor
    · rintro ⟨ha, hdiv⟩
      have := (Nat.div_lt_iff_lt_mul (Nat.pos_of_ne_zero ha)).mp hdiv
      calc SIZE_MAX < b * a := this
        _ = a * b := Nat.mul_comm b a
    · intro h
      have ha : a ≠ 0 := by
        rintro rfl
        simp at h
      refine ⟨ha, ?_⟩
      exact (Nat.div_lt_iff_lt_mul (Nat.pos_of_ne_zero ha)).mpr
        (by calc SIZE_MAX < a * b := h
              _ = b * a := Nat.mul_comm a b)
  have hadd : (SIZE_MAX - b < a) ↔ SIZE_MAX < a + b := by omega
  refine ⟨?_, ?_, ?_, ?_, ?_, ?_⟩
  · unfold safe_size_to_int32
    split <;> simp <;> omega
  · unfold safe_size_to_int32
    split
    · exact Or.inl (by omega)
    · exact Or.inr rfl
  · unfold safe_multiply
    split
    · simpa using hmul.mp (by assumption)
    · simp
      exact Nat.le_of_not_lt fun h => (by assumption : ¬(a ≠ 0 ∧ SIZE_MAX / a < b)) (hmul.mpr h)
  · unfold safe_multiply
    split
    · exact Or.inl (hmul.mp (by assumption))
    · exact Or.inr rfl
  · unfold safe_add
    split
    · simpa using hadd.mp (by assumption)
    · simp
      exact Nat.le_of_not_lt fun h => (by assumption : ¬(SIZE_MAX - b < a)) (hadd.mpr h)
  · unfold safe_add
    split
    · exact Or.inl (hadd.mp (by assumption))
    · exact Or.inr rfl

/-- Witness for C7: evaluated at `s = 2^31`, `a = b = 2^32`, where all three
failure conditions hold, and at small in-range values via the iff directions. -/
theorem c7_size_arithmetic_exact_witness :
    (safe_size_to_int32 (2 ^ 31) = .error .SizeExceeded ↔ INT32_MAX < 2 ^ 31)
    ∧ (INT32_MAX < 2 ^ 31 ∨ safe_size_to_int32 (2 ^ 31) = .ok (2 ^ 31))
    ∧ (safe_multiply (2 ^ 32) (2 ^ 32) = .error .SizeOverflow ↔ SIZE_MAX < 2 ^ 32 * 2 ^ 32)
    ∧ (SIZE_MAX < 2 ^ 32 * 2 ^ 32 ∨ safe_multiply (2 ^ 32) (2 ^ 32) = .ok (2 ^ 32 * 2 ^ 32))
    ∧ (safe_add (2 ^ 32) (2 ^ 32) = .error .SizeOverflow ↔ SIZE_MAX < 2 ^ 32 + 2 ^ 32)
    ∧ (SIZE_MAX < 2 ^ 32 + 2 ^ 32 ∨ safe_add (2 ^ 32) (2 ^ 32) = .ok (2 ^ 32 + 2 ^ 32)) :=
  c7_size_arithmetic_exact (2 ^ 31) (2 ^ 32) (2 ^ 32) (by decide)

/-- Input shape of a conversion call: a C++ data pointer together with its
declared extent.  `nullBuf n` models a null data pointer whose declared
length (view size or explicit length argument) is `n`; `valid bytes` models
a non-null pointer to the byte region `bytes`. -/
inductive Buf
  | nullBuf (declaredLen : Nat)
  | valid (bytes : List Nat)
  deriving DecidableEq, Repr

/-- Declared size of an input shape (`string_view::size()` or the explicit
length argument). -/
def Buf.size : Buf → Nat
  | .nullBuf n => n
  | .valid b => b.length

/-- Outcome of one `ucnv_convertEx` engine step, as the wrapper observes it:
`ok` (`U_ZERO_ERROR` or other success), `overflow` (`U_BUFFER_OVERFLOW_ERROR`,
the target is full), or `fail` (any other `U_FAILURE` status). -/
inductive StStatus
  | ok
  | overflow
  | fail
  deriving DecidableEq, Repr

/-- Trace of the wrapper's interactions with the ICU engine and with the
converter handles.  `openC` records a `ucnv_open` call and whether it
succeeded; `closeC` records a `ucnv_close`; the remaining events record the
conversion primitives together with the capacity the wrapper passed
(`toUFillC`/`fromUFillC`) or, for a streaming step (`convExC`), the reset
and flush flags, the remaining-source length at the call, the number of
bytes the engine wrote, and the resulting status. -/
inductive Ev
  | openC (name : String) (ok : Bool)
  | closeC
  | toUPreC
  | toUFillC (cap : Nat)
  | fromUPreC
  | fromUFillC (cap : Nat)
  | convExC (reset flush : Bool) (srcLen written : Nat) (st : StStatus)
  deriving DecidableEq, Repr

/-- Result of one abstract `ucnv_convertEx` step: the engine's new internal
state (converter + pivot state), the bytes written to the target, the number
of source bytes consumed, and the status. -/
structure StepRes (σ : Type) where
  es : σ
  prod : List Nat
  cons : Nat
  st : StStatus
  deriving DecidableEq, Repr

/-- Abstract ICU engine (spec section 6 boundary contract).  `openOk`,
`setToOk`, `setFromOk` describe `ucnv_open` / callback-configuration
outcomes per encoding name; `toUPre`/`toUFill` model `ucnv_toUChars` in
preflight (zero-capacity) and fill mode — a `.error ()` is any engine
failure other than the preflight buffer-overflow signal; `fromUPre` and
`fromUFill` model `ucnv_fromUChars` likewise; `stepEx` models one
`ucnv_convertEx` invocation (arguments: source and target encodings,
internal state, remaining source bytes, available target capacity, reset
flag, flush flag); `initState` is the engine state right after both
converters are opened. -/
structure Engine (σ : Type) where
  openOk : String → Bool
  setToOk : String → Bool
  setFromOk : String → Bool
  toUPre : String → List Nat → Except Unit Nat
  toUFill : String → List Nat → Nat → Except Unit (List Nat)
  fromUPre : String → List Nat → Except Unit Nat
  fromUFill : String → List Nat → Nat → Except Unit (List Nat)
  stepEx : String → String → σ → List Nat → Nat → Bool → Bool → StepRes σ
  initState : σ

/-- src/library.cpp lines 66-83: the `UConverterHandle` constructor.
`ucnv_open`, then both callback configurations, throwing on any failure.
C++ semantics: when the constructor throws after `ucnv_open` succeeded, the
destructor of the partially-constructed object does not run, so no `closeC`
event is emitted on those paths — the caller of `acquireConv` appends the
`closeC` of a successfully constructed handle at its scope end. -/
def acquireConv {σ : Type} (E : Engine σ) (name : String) : Except Err Unit × List Ev :=
  if E.openOk name then
    if E.setToOk name then
      if E.setFromOk name then (.ok (), [.openC name true])
      else (.error .ConfigurationFailed, [.openC name true])
    else (.error .ConfigurationFailed, [.openC name true])
  else (.error .UnknownEncoding, [.openC name false])

/-- Effective source bytes of a two-pass conversion: ICU's length convention,
where `-1` means "NUL-terminated, convert up to the first zero byte" and a
non-negative length means "convert exactly that many bytes". -/
def effBytes (mem : List Nat) (length : Int) : List Nat :=
  if length = -1 then mem.takeWhile (fun b => b ≠ 0) else mem.take length.toNat

/-- src/library.cpp lines 117-152: body of `convert_encoding_impl` after the
null check, operating on the effective source bytes.  Acquire both handles,
preflight `ucnv_toUChars`, fill an intermediate buffer of the measured
length plus one spare `UChar`, preflight `ucnv_fromUChars`, fill the output
buffer of exactly the measured byte length, and defensively trim when the
engine reports writing fewer bytes than measured.  Both handles are closed
(two `closeC` events) on every exit path after both constructors succeeded;
if the second constructor throws, only the first handle is closed. -/
def implCore {σ : Type} (E : Engine σ) (eff : List Nat)
    (from_encoding to_encoding : String) : Except Err (List Nat) × List Ev :=
  match acquireConv E from_encoding with
  | (.error e, t1) => (.error e, t1)
  | (.ok _, t1) =>
    match acquireConv E to_encoding with
    | (.error e, t2) => (.error e, t1 ++ t2 ++ [.closeC])
    | (.ok _, t2) =>
      let tAcq := t1 ++ t2
      match E.toUPre from_encoding eff with
      | .error _ => (.error .DecodeFailed, tAcq ++ [.toUPreC, .closeC, .closeC])
      | .ok uLen =>
        match E.toUFill from_encoding eff (uLen + 1) with
        | .error _ =>
          (.error .DecodeFailed, tAcq ++ [.toUPreC, .toUFillC (uLen + 1), .closeC, .closeC])
        | .ok u =>
          match E.fromUPre to_encoding u with
          | .error _ =>
            (.error .EncodeFailed,
              tAcq ++ [.toUPreC, .toUFillC (uLen + 1), .fromUPreC, .closeC, .closeC])
          | .ok outLen =>
            match E.fromUFill to_encoding u outLen with
            | .error _ =>
              (.error .EncodeFailed,
                tAcq ++ [.toUPreC, .toUFillC (uLen + 1), .fromUPreC, .fromUFillC outLen,
                  .closeC, .closeC])
            | .ok outBytes =>
              let written := outBytes.length
              let buffer := outBytes.take outLen ++ List.replicate (outLen - written) 0
              let result := if written < outLen then buffer.take written else buffer
              (.ok result,
                tAcq ++ [.toUPreC, .toUFillC (uLen + 1), .fromUPreC, .fromUFillC outLen,
                  .closeC, .closeC])

/-- src/library.cpp lines 106-153: `convert_encoding_impl`.  A null input
pointer with zero length yields an empty result before anything else; a null
pointer with any other length (including the `-1` sentinel) fails with
`NullInput`; otherwise the two-pass body runs on the effective bytes. -/
def convert_encoding_impl {σ : Type} (E : Engine σ) (input : Buf) (length : Int)
    (from_encoding to_encoding : String) : Except Err (List Nat) × List Ev :=
  match input with
  | .nullBuf _ => if length = 0 then (.ok [], []) else (.error .NullInput, [])
  | .valid mem => implCore E (effBytes mem length) from_encoding to_encoding

/-- src/library.cpp line 245: `convert_encoding` over a `string_view`. -/
def convert_encoding_view {σ : Type} (E : Engine σ) (input : Buf)
    (from_encoding to_encoding : String) : Except Err (List Nat) × List Ev :=
  match safe_size_to_int32 input.size with
  | .error e => (.error e, [])
  | .ok n => convert_encoding_impl E input (Int.ofNat n) from_encoding to_encoding

/-- src/library.cpp line 251: `to_utf8` over a `string_view`. -/
def to_utf8_view {σ : Type} (E : Engine σ) (input : Buf)
    (from_encoding : String) : Except Err (List Nat) × List Ev :=
  match safe_size_to_int32 input.size with
  | .error e => (.error e, [])
  | .ok n => convert_encoding_impl E input (Int.ofNat n) from_encoding "UTF-8"

/-- src/library.cpp line 255: `from_utf8` over a `string_view`. -/
def from_utf8_view {σ : Type} (E : Engine σ) (input : Buf)
    (to_encoding : String) : Except Err (List Nat) × List Ev :=
  match safe_size_to_int32 input.size with
  | .error e => (.error e, [])
  | .ok n => convert_encoding_impl E input (Int.ofNat n) "UTF-8" to_encoding

/-- src/library.cpp line 259: `big5_to_utf8` (two-pass Big5 convenience). -/
def big5_to_utf8 {σ : Type} (E : Engine σ) (input : Buf) :
    Except Err (List Nat) × List Ev :=
  to_utf8_view E input "Big5"

/-- src/library.cpp line 263: `utf8_to_big5` (two-pass Big5 convenience). -/
def utf8_to_big5 {σ : Type} (E : Engine σ) (input : Buf) :
    Except Err (List Nat) × List Ev :=
  from_utf8_view E input "Big5"

/-- src/library.cpp line 279: `convert_encoding` over a null-terminated
pointer; delegates with ICU's `-1` sentinel length. -/
def convert_encoding_term {σ : Type} (E : Engine σ) (input : Buf)
    (from_encoding to_encoding : String) : Except Err (List Nat) × List Ev :=
  convert_encoding_impl E input (-1) from_encoding to_encoding

/-- src/library.cpp line 285: `to_utf8` over a null-terminated pointer. -/
def to_utf8_term {σ : Type} (E : Engine σ) (input : Buf)
    (from_encoding : String) : Except Err (List Nat) × List Ev :=
  convert_encoding_impl E input (-1) from_encoding "UTF-8"

/-- src/library.cpp line 289: `from_utf8` over a null-terminated pointer. -/
def from_utf8_term {σ : Type} (E : Engine σ) (input : Buf)
    (to_encoding : String) : Except Err (List Nat) × List Ev :=
  convert_encoding_impl E input (-1) "UTF-8" to_encoding

/-- src/library.cpp line 293: `convert_encoding` over an explicit
pointer + length pair; `input` models the pointed region of that length. -/
def convert_encoding_ptrlen {σ : Type} (E : Engine σ) (input : Buf)
    (from_encoding to_encoding : String) : Except Err (List Nat) × List Ev :=
  match safe_size_to_int32 input.size with
  | .error e => (.error e, [])
  | .ok n => convert_encoding_impl E input (Int.ofNat n) from_encoding to_encoding

/-- src/library.cpp line 299: `to_utf8` over pointer + length. -/
def to_utf8_ptrlen {σ : Type} (E : Engine σ) (input : Buf)
    (from_encoding : String) : Except Err (List Nat) × List Ev :=
  match safe_size_to_int32 input.size with
  | .error e => (.error e, [])
  | .ok n => convert_encoding_impl E input (Int.ofNat n) from_encoding "UTF-8"

/-- src/library.cpp line 303: `from_utf8` over pointer + length. -/
def from_utf8_ptrlen {σ : Type} (E : Engine σ) (input : Buf)
    (to_encoding : String) : Except Err (List Nat) × List Ev :=
  match safe_size_to_int32 input.size with
  | .error e => (.error e, [])
  | .ok n => convert_encoding_impl E input (Int.ofNat n) "UTF-8" to_encoding

/-- State of the streaming loop (src/library.cpp lines 184-199): the engine's
internal state, the remaining source bytes (`source` cursor up to
`sourceLimit`), the bytes already written to the output buffer (`target`
cursor minus buffer start), the current output capacity (`out.size()`), and
the reset flag for the next `ucnv_convertEx` invocation. -/
structure LState (σ : Type) where
  es : σ
  srcRem : List Nat
  outB : List Nat
  cap : Nat
  reset : Bool
  deriving DecidableEq, Repr

/-- src/library.cpp line 223: the grown capacity
`safe_add(safe_multiply(out.size(), 2u), 16u)`. -/
def growCap (c : Nat) : Except Err Nat :=
  match safe_multiply c 2 with
  | .error e => .error e
  | .ok m => safe_add m 16

/-- src/library.cpp lines 220-227: handling of `U_BUFFER_OVERFLOW_ERROR`.
Only the output capacity changes (to the overflow-checked `2 * cap + 16`);
the written bytes, the source cursor, and the engine (pivot) state are left
untouched by the grow handling. -/
def growHandle {σ : Type} (s : LState σ) : Except Err (LState σ) :=
  match growCap s.cap with
  | .error e => .error e
  | .ok nc => .ok { s with cap := nc }

/-- Outcome of one iteration of the streaming loop: either the loop
terminates with a result (or a propagating error), or it continues with an
updated state. -/
inductive StepOut (σ : Type)
  | exit (r : Except Err (List Nat))
  | cont (s : LState σ)
  deriving DecidableEq, Repr

/-- src/library.cpp lines 201-237: one iteration of the streaming loop.
`flush` is computed as "source cursor has reached source limit"; one
`ucnv_convertEx` step runs with the current reset flag (cleared immediately
after); buffer-overflow triggers the grow handling and a retry; any other
failure exits with `StreamConversionFailed`; success with `flush` set exits
with the bytes written so far (the final `out.resize(target - out.data())`). -/
def stepBody {σ : Type} (E : Engine σ) (fromE toE : String) (s : LState σ) :
    StepOut σ × Ev :=
  let flush := s.srcRem.isEmpty
  let r := E.stepEx fromE toE s.es s.srcRem (s.cap - s.outB.length) s.reset flush
  let ev := Ev.convExC s.reset flush s.srcRem.length r.prod.length r.st
  let s1 : LState σ :=
    { es := r.es, srcRem := s.srcRem.drop r.cons, outB := s.outB ++ r.prod,
      cap := s.cap, reset := false }
  match r.st with
  | .overflow =>
    match growHandle s1 with
    | .error e => (.exit (.error e), ev)
    | .ok s2 => (.cont s2, ev)
  | .fail => (.exit (.error .StreamConversionFailed), ev)
  | .ok => if flush then (.exit (.ok s1.outB), ev) else (.cont s1, ev)

/-- The streaming `for (;;)` loop, run with explicit fuel; `none` models an
execution that has not terminated within the given number of iterations. -/
def streamLoop {σ : Type} (E : Engine σ) (fromE toE : String) :
    Nat → LState σ → Option (Except Err (List Nat)) × List Ev
  | 0, _ => (none, [])
  | fuel + 1, s =>
    match stepBody E fromE toE s with
    | (.exit r, ev) => (some r, [ev])
    | (.cont s2, ev) =>
      let rt := streamLoop E fromE toE fuel s2
      (rt.1, ev :: rt.2)

/-- src/library.cpp lines 180-240: body of `convert_encoding_streaming`
after the null check.  Acquire both handles, clamp the initial capacity to
at least 16, run the loop from a fresh state with `reset = true`, and close
both handles on every exit (a non-terminating loop never reaches the
destructors). -/
def streamGo {σ : Type} (E : Engine σ) (fuel : Nat) (src : List Nat)
    (fromE toE : String) (initCap : Nat) :
    Option (Except Err (List Nat)) × List Ev :=
  match acquireConv E fromE with
  | (.error e, t1) => (some (.error e), t1)
  | (.ok _, t1) =>
    match acquireConv E toE with
    | (.error e, t2) => (some (.error e), t1 ++ t2 ++ [.closeC])
    | (.ok _, t2) =>
      let cap0 := if initCap < 16 then 16 else initCap
      let s0 : LState σ :=
        { es := E.initState, srcRem := src, outB := [], cap := cap0, reset := true }
      match streamLoop E fromE toE fuel s0 with
      | (none, t) => (none, t1 ++ t2 ++ t)
      | (some r, t) => (some r, t1 ++ t2 ++ t ++ [.closeC, .closeC])

/-- src/library.cpp lines 172-241: `convert_encoding_streaming`.  A null
data pointer with nonzero size fails with `NullInput` before any engine
interaction; a null pointer with zero size proceeds with an empty source
range (the converters are still acquired and the loop still runs). -/
def convert_encoding_streaming {σ : Type} (E : Engine σ) (fuel : Nat)
    (input : Buf) (fromE toE : String) (initCap : Nat) :
    Option (Except Err (List Nat)) × List Ev :=
  match input with
  | .nullBuf n =>
    if n ≠ 0 then (some (.error .NullInput), [])
    else streamGo E fuel [] fromE toE initCap
  | .valid bytes => streamGo E fuel bytes fromE toE initCap

/-- src/library.cpp lines 267-271: `big5_to_utf8_dr`, the streaming Big5 to
UTF-8 convenience; the initial capacity guess is the overflow-checked
`3 * size + 16`. -/
def big5_to_utf8_dr {σ : Type} (E : Engine σ) (fuel : Nat) (input : Buf) :
    Option (Except Err (List Nat)) × List Ev :=
  match safe_multiply input.size 3 with
  | .error e => (some (.error e), [])
  | .ok m =>
    match safe_add m 16 with
    | .error e => (some (.error e), [])
    | .ok guess => convert_encoding_streaming E fuel input "Big5" "UTF-8" guess

/-- src/library.cpp lines 273-277: `utf8_to_big5_dr`, the streaming UTF-8 to
Big5 convenience; the initial capacity guess is the overflow-checked
`2 * size + 16`. -/
def utf8_to_big5_dr {σ : Type} (E : Engine σ) (fuel : Nat) (input : Buf) :
    Option (Except Err (List Nat)) × List Ev :=
  match safe_multiply input.size 2 with
  | .error e => (some (.error e), [])
  | .ok m =>
    match safe_add m 16 with
    | .error e => (some (.error e), [])
    | .ok guess => convert_encoding_streaming E fuel input "UTF-8" "Big5" guess

/-- Trivial engine: every acquisition succeeds and every conversion
primitive succeeds with empty output and no consumption. -/
def EngTriv : Engine Unit where
  openOk _ := true
  setToOk _ := true
  setFromOk _ := true
  toUPre _ _ := .ok 0
  toUFill _ _ _ := .ok []
  fromUPre _ _ := .ok 0
  fromUFill _ _ _ := .ok []
  stepEx _ _ es _ _ _ _ := ⟨es, [], 0, .ok⟩
  initState := ()

/-- Engine whose `ucnv_open` fails for every name. -/
def EngOpenFail : Engine Unit where
  openOk _ := false
  setToOk _ := true
  setFromOk _ := true
  toUPre _ _ := .ok 0
  toUFill _ _ _ := .ok []
  fromUPre _ _ := .ok 0
  fromUFill _ _ _ := .ok []
  stepEx _ _ es _ _ _ _ := ⟨es, [], 0, .ok⟩
  initState := ()

/-- Engine whose `ucnv_open` succeeds but whose to-Unicode callback
configuration (`ucnv_setToUCallBack`) reports failure. -/
def EngCfgFail : Engine Unit where
  openOk _ := true
  setToOk _ := false
  setFromOk _ := true
  toUPre _ _ := .ok 0
  toUFill _ _ _ := .ok []
  fromUPre _ _ := .ok 0
  fromUFill _ _ _ := .ok []
  stepEx _ _ es _ _ _ _ := ⟨es, [], 0, .ok⟩
  initState := ()

/-- Engine whose encode phase measures 5 output bytes but whose fill call
reports writing only 3 of them — the defensive-trim scenario of the
two-pass converter. -/
def EngTrunc : Engine Unit where
  openOk _ := true
  setToOk _ := true
  setFromOk _ := true
  toUPre _ _ := .ok 2
  toUFill _ _ _ := .ok [10, 20]
  fromUPre _ _ := .ok 5
  fromUFill _ _ _ := .ok [1, 2, 3]
  stepEx _ _ es _ _ _ _ := ⟨es, [], 0, .ok⟩
  initState := ()

/-- The narrowing check accepts any size within the `int32_t` bound. -/
theorem narrow_ok (n : Nat) (h : n ≤ INT32_MAX) : safe_size_to_int32 n = .ok n := by
  unfold safe_size_to_int32
  split
  · omega
  · rfl

/-- The narrowing check rejects any size beyond the `int32_t` bound. -/
theorem narrow_err (n : Nat) (h : INT32_MAX < n) :
    safe_size_to_int32 n = .error .SizeExceeded := by
  unfold safe_size_to_int32
  split
  · rfl
  · omega

/-- The overflow-checked multiply succeeds on any in-range product. -/
theorem mul_ok (a b : Nat) (h : a * b ≤ SIZE_MAX) : safe_multiply a b = .ok (a * b) := by
  unfold safe_multiply
  split
  · rename_i hc
    obtain ⟨ha, hdiv⟩ := hc
    have h2 := (Nat.div_lt_iff_lt_mul (Nat.pos_of_ne_zero ha)).mp hdiv
    rw [Nat.mul_comm b a] at h2
    omega
  · rfl

/-- The overflow-checked add succeeds on any in-range sum. -/
theorem add_ok (a b : Nat) (h : a + b ≤ SIZE_MAX) : safe_add a b = .ok (a + b) := by
  unfold safe_add
  split
  · omega
  · rfl

/-- C3 (code bug): in the `UConverterHandle` constructor
(src/library.cpp lines 66-83), when `ucnv_setToUCallBack` fails after a
successful `ucnv_open`, the constructor throws, so by C++ semantics the
destructor of the partially constructed handle never runs: the call fails
with `ConfigurationFailed` as specified, but the successfully opened
endpoint is never released (one successful open event, zero close events),
contradicting the claim that every successfully opened endpoint is released
exactly once on every exit path. -/
theorem c3_configuration_failure_leaks_endpoint :
    (convert_encoding_view EngCfgFail (Buf.valid [65]) "Big5" "UTF-8").1
      = .error .ConfigurationFailed
    ∧ (convert_encoding_view EngCfgFail (Buf.valid [65]) "Big5" "UTF-8").2.count
        (Ev.openC "Big5" true) = 1
    ∧ (convert_encoding_view EngCfgFail (Buf.valid [65]) "Big5" "UTF-8").2.count
        Ev.closeC = 0 := by
  decide

/-- C2 (amended): null/zero-length handling across entry points.  A null
pointer with nonzero declared length fails with `NullInput` before any
engine interaction (empty trace) on every shape — except that on the
explicit-length two-pass shapes the narrowing check runs first, so a null
pointer with length above `2^31 - 1` fails with `SizeExceeded` instead.
A null pointer with zero declared length returns an empty result with no
engine calls on the two-pass shapes, while the streaming entry points still
acquire both endpoints and invoke one flush step of the engine (nonempty
trace) before returning the empty result.  A non-null pointer with zero
length returns an empty result without error. -/
theorem c2_null_zero_consistency {σ : Type} (E : Engine σ) (f t : String) (fuel : Nat)
    (hof : E.openOk f = true) (hsf1 : E.setToOk f = true) (hsf2 : E.setFromOk f = true)
    (hot : E.openOk t = true) (hst1 : E.setToOk t = true) (hst2 : E.setFromOk t = true)
    (hoB : E.openOk "Big5" = true) (hsB1 : E.setToOk "Big5" = true)
    (hsB2 : E.setFromOk "Big5" = true)
    (hoU : E.openOk "UTF-8" = true) (hsU1 : E.setToOk "UTF-8" = true)
    (hsU2 : E.setFromOk "UTF-8" = true)
    (hpre : E.toUPre f [] = .ok 0) (hfill : E.toUFill f [] 1 = .ok [])
    (hfpre : E.fromUPre t [] = .ok 0) (hffill : E.fromUFill t [] 0 = .ok [])
    (hst : (E.stepEx "Big5" "UTF-8" E.initState [] 16 true true).st = .ok)
    (hpr : (E.stepEx "Big5" "UTF-8" E.initState [] 16 true true).prod = [])
    (hfuel : 0 < fuel) :
    (∀ n : Nat, 0 < n → n ≤ INT32_MAX →
      convert_encoding_view E (Buf.nullBuf n) f t = (.error .NullInput, [])
      ∧ convert_encoding_ptrlen E (Buf.nullBuf n) f t = (.error .NullInput, [])
      ∧ big5_to_utf8 E (Buf.nullBuf n) = (.error .NullInput, []))
    ∧ (∀ n : Nat, INT32_MAX < n →
      convert_encoding_view E (Buf.nullBuf n) f t = (.error .SizeExceeded, []))
    ∧ (∀ n : Nat, convert_encoding_term E (Buf.nullBuf n) f t = (.error .NullInput, []))
    ∧ (∀ n : Nat, 0 < n → 3 * n + 16 ≤ SIZE_MAX →
      big5_to_utf8_dr E fuel (Buf.nullBuf n) = (some (.error .NullInput), []))
    ∧ (∀ n : Nat, 0 < n → 2 * n + 16 ≤ SIZE_MAX →
      utf8_to_big5_dr E fuel (Buf.nullBuf n) = (some (.error .NullInput), []))
    ∧ convert_encoding_view E (Buf.nullBuf 0) f t = (.ok [], [])
    ∧ convert_encoding_ptrlen E (Buf.nullBuf 0) f t = (.ok [], [])
    ∧ (big5_to_utf8_dr E fuel (Buf.nullBuf 0)).2 ≠ []
    ∧ (big5_to_utf8_dr E fuel (Buf.nullBuf 0)).1 = some (.ok [])
    ∧ (convert_encoding_view E (Buf.valid []) f t).1 = .ok [] := by
  have hmul0 : safe_multiply 0 3 = .ok 0 := by
    have := mul_ok 0 3 (by decide)
    simpa using this
  refine ⟨?_, ?_, ?_, ?_, ?_, ?_, ?_, ?_, ?_, ?_⟩
  · intro n hn hn32
    have hnar := narrow_ok n hn32
    have hne : Int.ofNat n ≠ 0 := by
      simp [Int.ofNat_eq_zero]
      omega
    refine ⟨?_, ?_, ?_⟩ <;>
      simp [convert_encoding_view, convert_encoding_ptrlen, big5_to_utf8, to_utf8_view,
        Buf.size, hnar, convert_encoding_impl, hne]
    all_goals omega
  · intro n hn
    have hnar := narrow_err n hn
    simp [convert_encoding_view, Buf.size, hnar]
  · intro n
    simp [convert_encoding_term, convert_encoding_impl]
  · intro n hn hbound
    have hmul := mul_ok n 3 (by omega)
    have hadd := add_ok (n * 3) 16 (by omega)
    simp [big5_to_utf8_dr, Buf.size, hmul, hadd, convert_encoding_streaming, hn,
      Nat.pos_iff_ne_zero.mp hn]
  · intro n hn hbound
    have hmul := mul_ok n 2 (by omega)
    have hadd := add_ok (n * 2) 16 (by omega)
    simp [utf8_to_big5_dr, Buf.size, hmul, hadd, convert_encoding_streaming, hn,
      Nat.pos_iff_ne_zero.mp hn]
  · have hnar := narrow_ok 0 (by decide)
    simp [convert_encoding_view, Buf.size, hnar, convert_encoding_impl]
  · have hnar := narrow_ok 0 (by decide)
    simp [convert_encoding_ptrlen, Buf.size, hnar, convert_encoding_impl]
  · have hadd := add_ok 0 16 (by decide)
    obtain ⟨k, rfl⟩ := Nat.exists_eq_succ_of_ne_zero (Nat.pos_iff_ne_zero.mp hfuel)
    simp [big5_to_utf8_dr, Buf.size, hmul0, hadd, convert_encoding_streaming, streamGo,
      acquireConv, hoB, hsB1, hsB2, hoU, hsU1, hsU2, streamLoop, stepBody, hst, hpr]
  · have hadd := add_ok 0 16 (by decide)
    obtain ⟨k, rfl⟩ := Nat.exists_eq_succ_of_ne_zero (Nat.pos_iff_ne_zero.mp hfuel)
    simp [big5_to_utf8_dr, Buf.size, hmul0, hadd, convert_encoding_streaming, streamGo,
      acquireConv, hoB, hsB1, hsB2, hoU, hsU1, hsU2, streamLoop, stepBody, hst, hpr]
  · have hnar := narrow_ok 0 (by decide)
    simp [convert_encoding_view, Buf.size, hnar, convert_encoding_impl, effBytes, implCore,
      acquireConv, hof, hsf1, hsf2, hot, hst1, hst2, hpre, hfill, hfpre, hffill]

/-- Counterexample to C2 as stated: with the trivial engine, the streaming
entry point `big5_to_utf8_dr` called on a null pointer with zero declared
length acquires converter endpoints and invokes the engine — its interaction
trace is nonempty — whereas the claim says such a call makes no engine calls
at all. -/
theorem c2_counterexample :
    (big5_to_utf8_dr EngTriv 1 (Buf.nullBuf 0)).2 ≠ []
    ∧ Ev.openC "Big5" true ∈ (big5_to_utf8_dr EngTriv 1 (Buf.nullBuf 0)).2 := by
  decide

/-- Witness for C2 (amended), evaluated at the trivial engine. -/
theorem c2_null_zero_consistency_witness :
    (convert_encoding_view EngTriv (Buf.nullBuf 5) "X" "Y" = (.error .NullInput, [])
      ∧ convert_encoding_ptrlen EngTriv (Buf.nullBuf 5) "X" "Y" = (.error .NullInput, [])
      ∧ big5_to_utf8 EngTriv (Buf.nullBuf 5) = (.error .NullInput, []))
    ∧ convert_encoding_view EngTriv (Buf.nullBuf (2 ^ 31)) "X" "Y"
        = (.error .SizeExceeded, [])
    ∧ convert_encoding_term EngTriv (Buf.nullBuf 7) "X" "Y" = (.error .NullInput, [])
    ∧ big5_to_utf8_dr EngTriv 1 (Buf.nullBuf 7) = (some (.error .NullInput), [])
    ∧ utf8_to_big5_dr EngTriv 1 (Buf.nullBuf 7) = (some (.error .NullInput), [])
    ∧ convert_encoding_view EngTriv (Buf.nullBuf 0) "X" "Y" = (.ok [], [])
    ∧ (big5_to_utf8_dr EngTriv 1 (Buf.nullBuf 0)).1 = some (.ok [])
    ∧ (convert_encoding_view EngTriv (Buf.valid []) "X" "Y").1 = .ok [] := by
  have h := c2_null_zero_consistency EngTriv "X" "Y" 1 rfl rfl rfl rfl rfl rfl rfl rfl rfl
    rfl rfl rfl rfl rfl rfl rfl rfl rfl (by decide)
  exact ⟨h.1 5 (by decide) (by decide),
    h.2.1 (2 ^ 31) (by decide),
    h.2.2.1 7,
    h.2.2.2.1 7 (by decide) (by decide),
    h.2.2.2.2.1 7 (by decide) (by decide),
    h.2.2.2.2.2.1,
    h.2.2.2.2.2.2.2.2.1,
    h.2.2.2.2.2.2.2.2.2⟩

/-- C6: the two-pass converter's measure-then-fill protocol
(src/library.cpp lines 120-152).  A decode preflight failure other than
buffer-overflow fails with `DecodeFailed`; the intermediate buffer's fill
call is made with exactly the measured length plus one spare unit; a decode
fill failure fails with `DecodeFailed`; encode preflight and fill failures
fail with `EncodeFailed`; and when the encode fill reports writing fewer
bytes than measured, the result is the actually-written bytes (defensive
trim), not an error — and with exactly the measured count the result is
likewise the written bytes. -/
theorem c6_measure_then_fill {σ : Type} (E : Engine σ) (mem : List Nat) (length : Int)
    (f t : String)
    (hof : E.openOk f = true) (hsf1 : E.setToOk f = true) (hsf2 : E.setFromOk f = true)
    (hot : E.openOk t = true) (hst1 : E.setToOk t = true) (hst2 : E.setFromOk t = true) :
    (E.toUPre f (effBytes mem length) = .error () →
      (convert_encoding_impl E (Buf.valid mem) length f t).1 = .error .DecodeFailed)
    ∧ (∀ n, E.toUPre f (effBytes mem length) = .ok n →
      Ev.toUFillC (n + 1) ∈ (convert_encoding_impl E (Buf.valid mem) length f t).2)
    ∧ (∀ n, E.toUPre f (effBytes mem length) = .ok n →
      E.toUFill f (effBytes mem length) (n + 1) = .error () →
      (convert_encoding_impl E (Buf.valid mem) length f t).1 = .error .DecodeFailed)
    ∧ (∀ n u, E.toUPre f (effBytes mem length) = .ok n →
      E.toUFill f (effBytes mem length) (n + 1) = .ok u →
      E.fromUPre t u = .error () →
      (convert_encoding_impl E (Buf.valid mem) length f t).1 = .error .EncodeFailed)
    ∧ (∀ n u m, E.toUPre f (effBytes mem length) = .ok n →
      E.toUFill f (effBytes mem length) (n + 1) = .ok u →
      E.fromUPre t u = .ok m →
      E.fromUFill t u m = .error () →
      (convert_encoding_impl E (Buf.valid mem) length f t).1 = .error .EncodeFailed)
    ∧ (∀ n u m ob, E.toUPre f (effBytes mem length) = .ok n →
      E.toUFill f (effBytes mem length) (n + 1) = .ok u →
      E.fromUPre t u = .ok m →
      E.fromUFill t u m = .ok ob →
      ob.length ≤ m →
      (convert_encoding_impl E (Buf.valid mem) length f t).1 = .ok ob) := by
  refine ⟨?_, ?_, ?_, ?_, ?_, ?_⟩
  · intro hp
    simp [convert_encoding_impl, implCore, acquireConv, hof, hsf1, hsf2, hot, hst1, hst2, hp]
  · intro n hp
    simp only [convert_encoding_impl, implCore, acquireConv, hof, hsf1, hsf2, hot, hst1,
      hst2, if_true, hp]
    cases hfill : E.toUFill f (effBytes mem length) (n + 1) with
    | error e => simp
    | ok u =>
      cases hfp : E.fromUPre t u with
      | error e => simp [hfp]
      | ok m =>
        cases hff : E.fromUFill t u m with
        | error e => simp [hfp, hff]
        | ok ob => simp [hfp, hff]
  · intro n hp hfl
    simp [convert_encoding_impl, implCore, acquireConv, hof, hsf1, hsf2, hot, hst1, hst2,
      hp, hfl]
  · intro n u hp hfl hfp
    simp [convert_encoding_impl, implCore, acquireConv, hof, hsf1, hsf2, hot, hst1, hst2,
      hp, hfl, hfp]
  · intro n u m hp hfl hfp hff
    simp [convert_encoding_impl, implCore, acquireConv, hof, hsf1, hsf2, hot, hst1, hst2,
      hp, hfl, hfp, hff]
  · intro n u m ob hp hfl hfp hff hle
    simp only [convert_encoding_impl, implCore, acquireConv, hof, hsf1, hsf2, hot, hst1,
      hst2, if_true, hp, hfl, hfp, hff]
    have htake : ob.take m = ob := List.take_of_length_le hle
    rcases Nat.lt_or_ge ob.length m with hlt | hge
    · simp [hlt, htake, List.take_append_eq_append_take, List.take_length, Nat.sub_self]
    · have hm : ob.length = m := Nat.le_antisymm hle hge
      simp [Nat.not_lt.mpr hge, htake, hm, Nat.sub_self]

/-- Witness for C6: evaluated at `EngTrunc`, whose encode phase measures 5
bytes but writes only 3 — the call returns the 3 written bytes, and the
intermediate fill was invoked with capacity measured + 1 = 3. -/
theorem c6_measure_then_fill_witness :
    (convert_encoding_impl EngTrunc (Buf.valid [7]) 1 "A" "B").1 = .ok [1, 2, 3]
    ∧ Ev.toUFillC 3 ∈ (convert_encoding_impl EngTrunc (Buf.valid [7]) 1 "A" "B").2 := by
  have h := c6_measure_then_fill EngTrunc [7] 1 "A" "B" rfl rfl rfl rfl rfl rfl
  exact ⟨h.2.2.2.2.2 2 [10, 20] 5 [1, 2, 3] rfl rfl rfl rfl (by decide), h.2.1 2 rfl⟩

/-- The ICU `-1` (NUL-terminated) length convention converts exactly the
bytes before the first zero byte: when index `k` is the first zero,
`takeWhile (b not zero)` equals `take k`. -/
theorem takeWhile_eq_take_firstZero :
    ∀ (mem : List Nat) (k : Nat) (hk : k < mem.length),
      mem.get ⟨k, hk⟩ = 0 →
      (∀ i : Fin mem.length, i.val < k → mem.get i ≠ 0) →
      mem.takeWhile (fun b => b ≠ 0) = mem.take k := by
  intro mem
  induction mem with
  | nil => intro k hk; simp at hk
  | cons a rest ih =>
    intro k hk hz hnz
    cases k with
    | zero =>
      have ha : a = 0 := hz
      simp [List.takeWhile_cons, ha]
    | succ j =>
      have ha : a ≠ 0 := hnz ⟨0, by simp⟩ (Nat.succ_pos j)
      have hj : j < rest.length := by
        simpa [Nat.succ_lt_succ_iff] using hk
      have hz2 : rest.get ⟨j, hj⟩ = 0 := hz
      have hnz2 : ∀ i : Fin rest.length, i.val < j → rest.get i ≠ 0 := by
        intro i hij
        have := hnz ⟨i.val + 1, Nat.succ_lt_succ i.isLt⟩
          (Nat.succ_lt_succ hij)
        exact this
      have hrec := ih j hj hz2 hnz2
      rw [List.takeWhile_cons, if_pos (by simpa using ha), hrec, List.take_succ_cons]

/-- C10 (amended): for every non-null NUL-terminated byte string whose first
zero byte sits at an index `k` within the narrowing bound `2^31 - 1`, the
null-terminated overloads return exactly what the explicit-length (and view)
overloads return on the first `k` bytes: all shapes delegate to
`convert_encoding_impl`, the terminated shape via the `-1` sentinel.  When
`k` exceeds the bound the shapes disagree, because the narrowing check runs
only on the explicit-length shapes (see the counterexample). -/
theorem c10_terminated_matches_explicit {σ : Type} (E : Engine σ) (mem : List Nat)
    (k : Nat) (f t : String) (hk : k < mem.length) (hz : mem.get ⟨k, hk⟩ = 0)
    (hnz : ∀ i : Fin mem.length, i.val < k → mem.get i ≠ 0)
    (hk32 : k ≤ INT32_MAX) :
    convert_encoding_term E (Buf.valid mem) f t
      = convert_encoding_ptrlen E (Buf.valid (mem.take k)) f t
    ∧ convert_encoding_ptrlen E (Buf.valid (mem.take k)) f t
      = convert_encoding_view E (Buf.valid (mem.take k)) f t
    ∧ to_utf8_term E (Buf.valid mem) f = to_utf8_ptrlen E (Buf.valid (mem.take k)) f
    ∧ from_utf8_term E (Buf.valid mem) t = from_utf8_ptrlen E (Buf.valid (mem.take k)) t := by
  have hsz : (Buf.valid (mem.take k)).size = k := by
    show (mem.take k).length = k
    simp [List.length_take]
    omega
  have hnar : safe_size_to_int32 (Buf.valid (mem.take k)).size = .ok k := by
    rw [hsz]
    exact narrow_ok k hk32
  have heff : effBytes mem (-1) = effBytes (mem.take k) (Int.ofNat k) := by
    unfold effBytes
    have hne : (Int.ofNat k) ≠ -1 := by
      intro h
      have h0 : (0 : Int) ≤ Int.ofNat k := Int.ofNat_nonneg k
      rw [h] at h0
      norm_num at h0
    have htn : (Int.ofNat k).toNat = k := rfl
    rw [if_pos rfl, if_neg hne, takeWhile_eq_take_firstZero mem k hk hz hnz,
      htn, List.take_take, Nat.min_self]
  refine ⟨?_, rfl, ?_, ?_⟩ <;>
    simp [convert_encoding_term, to_utf8_term, from_utf8_term, convert_encoding_ptrlen,
      to_utf8_ptrlen, from_utf8_ptrlen, hnar, convert_encoding_impl, heff]

/-- Witness for C10 (amended): the byte string `[65, 66, 0, 67]` with first
zero at index 2. -/
theorem c10_terminated_matches_explicit_witness :
    convert_encoding_term EngTrunc (Buf.valid [65, 66, 0, 67]) "A" "B"
      = convert_encoding_ptrlen EngTrunc (Buf.valid [65, 66]) "A" "B" := by
  have h := c10_terminated_matches_explicit EngTrunc [65, 66, 0, 67] 2 "A" "B"
    (by decide) (by decide) (by decide) (by decide)
  simpa using h.1

/-- The terminated shape skips the narrowing check: with an engine whose
`ucnv_open` fails, the terminated overload on any valid region reaches the
endpoint call (failing with `UnknownEncoding`), while the explicit-length
overload on a region longer than the bound fails with `SizeExceeded`. -/
theorem c10_shape_disagreement (n : Nat) (hn : INT32_MAX < n) (mem memk : List Nat)
    (hlen : memk.length = n) :
    (convert_encoding_term EngOpenFail (Buf.valid mem) "Big5" "UTF-8").1
      = .error .UnknownEncoding
    ∧ (convert_encoding_ptrlen EngOpenFail (Buf.valid memk) "Big5" "UTF-8").1
      = .error .SizeExceeded := by
  constructor
  · simp [convert_encoding_term, convert_encoding_impl, implCore, acquireConv, EngOpenFail]
  · have hsz : safe_size_to_int32 (Buf.valid memk).size = .error .SizeExceeded := by
      show safe_size_to_int32 memk.length = .error .SizeExceeded
      rw [hlen]
      exact narrow_err n hn
    unfold convert_encoding_ptrlen
    rw [hsz]

/-- Counterexample to C10 as stated: a NUL-terminated string whose first
zero byte sits at index `2^31` (beyond the narrowing bound).  The
terminated overload performs no narrowing (it passes the `-1` sentinel) and
proceeds to the endpoint call, while the explicit-length overload applied
to the first `2^31` bytes — the index of the first zero — fails with
`SizeExceeded`: the two shapes disagree. -/
theorem c10_counterexample :
    (List.replicate (2 ^ 31) 1 ++ [0]).takeWhile (fun b => b ≠ 0)
        = List.replicate (2 ^ 31) 1
    ∧ convert_encoding_term EngOpenFail
          (Buf.valid (List.replicate (2 ^ 31) 1 ++ [0])) "Big5" "UTF-8"
        ≠ convert_encoding_ptrlen EngOpenFail
          (Buf.valid ((List.replicate (2 ^ 31) 1 ++ [0]).take (2 ^ 31))) "Big5" "UTF-8" := by
  have htw : ∀ m : Nat, (List.replicate m 1 ++ [(0 : Nat)]).takeWhile (fun b => b ≠ 0)
      = List.replicate m 1 := by
    intro m
    induction m with
    | zero => rfl
    | succ j ih => rw [List.replicate_succ, List.cons_append, List.takeWhile_cons,
        if_pos (by decide), ih]
  have hlen : ((List.replicate (2 ^ 31) 1 ++ [0]).take (2 ^ 31)).length = 2 ^ 31 := by
    rw [List.length_take, List.length_append, List.length_replicate]
    omega
  have h := c10_shape_disagreement (2 ^ 31) (by decide)
    (List.replicate (2 ^ 31) 1 ++ [0]) ((List.replicate (2 ^ 31) 1 ++ [0]).take (2 ^ 31))
    hlen
  refine ⟨htw (2 ^ 31), ?_⟩
  intro hcontra
  have h1 := congrArg Prod.fst hcontra
  rw [h.1, h.2] at h1
  exact absurd h1 (by decide)

/-- Reset flag recorded in a streaming-step event. -/
def Ev.resetOf : Ev → Bool
  | .convExC r _ _ _ _ => r
  | _ => false

/-- Flush flag recorded in a streaming-step event. -/
def Ev.flushOf : Ev → Bool
  | .convExC _ fl _ _ _ => fl
  | _ => false

/-- Remaining-source length recorded in a streaming-step event. -/
def Ev.srcLenOf : Ev → Nat
  | .convExC _ _ n _ _ => n
  | _ => 0

/-- Number of bytes the engine wrote, recorded in a streaming-step event. -/
def Ev.writtenOf : Ev → Nat
  | .convExC _ _ _ w _ => w
  | _ => 0

/-- Status recorded in a streaming-step event. -/
def Ev.statusOf : Ev → StStatus
  | .convExC _ _ _ _ st => st
  | _ => .fail

/-- The event emitted by one loop iteration records exactly the reset flag,
the flush flag (source exhausted), the remaining-source length, the bytes
written by this engine step, and its status. -/
theorem stepBody_snd {σ : Type} (E : Engine σ) (fromE toE : String) (s : LState σ)
    (so : StepOut σ) (ev : Ev) (h : stepBody E fromE toE s = (so, ev)) :
    ev = Ev.convExC s.reset s.srcRem.isEmpty s.srcRem.length
      (E.stepEx fromE toE s.es s.srcRem (s.cap - s.outB.length) s.reset
        s.srcRem.isEmpty).prod.length
      (E.stepEx fromE toE s.es s.srcRem (s.cap - s.outB.length) s.reset
        s.srcRem.isEmpty).st := by
  unfold stepBody at h
  simp only [] at h
  split at h
  · split at h <;> (cases h; rfl)
  · cases h; rfl
  · split at h <;> (cases h; rfl)

/-- Every continuation state produced by a loop iteration carries
`reset = false`, extends the written bytes by exactly the engine's output,
and advances the source cursor by exactly the engine's consumption. -/
theorem stepBody_cont {σ : Type} (E : Engine σ) (fromE toE : String) (s s2 : LState σ)
    (ev : Ev) (h : stepBody E fromE toE s = (.cont s2, ev)) :
    s2.reset = false
    ∧ s2.outB = s.outB ++ (E.stepEx fromE toE s.es s.srcRem (s.cap - s.outB.length)
        s.reset s.srcRem.isEmpty).prod
    ∧ s2.srcRem = s.srcRem.drop (E.stepEx fromE toE s.es s.srcRem
        (s.cap - s.outB.length) s.reset s.srcRem.isEmpty).cons
    ∧ s2.es = (E.stepEx fromE toE s.es s.srcRem (s.cap - s.outB.length)
        s.reset s.srcRem.isEmpty).es := by
  unfold stepBody at h
  simp only [] at h
  split at h
  · rename_i hst
    unfold growHandle at h
    split at h
    · cases h
    · rename_i s2g hgc
      injection h with h1 h2
      injection h1 with h3
      subst h3
      split at hgc
      · cases hgc
      · injection hgc with h4
        subst h4
        exact ⟨rfl, rfl, rfl, rfl⟩
  · cases h
  · split at h
    · cases h
    · injection h with h1 h2
      injection h1 with h3
      subst h3
      exact ⟨rfl, rfl, rfl, rfl⟩

/-- A loop iteration exits successfully exactly from a flush step that the
engine answers with success, and the exit value is the bytes written so
far. -/
theorem stepBody_exit_ok {σ : Type} (E : Engine σ) (fromE toE : String) (s : LState σ)
    (out : List Nat) (ev : Ev) (h : stepBody E fromE toE s = (.exit (.ok out), ev)) :
    s.srcRem.isEmpty = true
    ∧ (E.stepEx fromE toE s.es s.srcRem (s.cap - s.outB.length) s.reset
        s.srcRem.isEmpty).st = .ok
    ∧ out = s.outB ++ (E.stepEx fromE toE s.es s.srcRem (s.cap - s.outB.length)
        s.reset s.srcRem.isEmpty).prod := by
  unfold stepBody at h
  simp only [] at h
  split at h
  · rename_i hst
    unfold growHandle at h
    split at h
    · cases h
    · cases h
  · cases h
  · rename_i hst
    split at h
    · rename_i hfl
      cases h
      exact ⟨hfl, hst, rfl⟩
    · cases h

/-- The grown capacity is the overflow-checked `2 * cap + 16`. -/
theorem growCap_eq (c : Nat) (h : 2 * c + 16 ≤ SIZE_MAX) :
    growCap c = .ok (2 * c + 16) := by
  unfold growCap
  rw [mul_ok c 2 (by omega)]
  show safe_add (c * 2) 16 = Except.ok (2 * c + 16)
  rw [add_ok (c * 2) 16 (by omega), Nat.mul_comm c 2]

/-- C4: when the engine reports the target buffer full, the loop grows the
output to capacity `2 * cap + 16` via the overflow-checked arithmetic,
preserves the bytes already written (the new written prefix is the old one
followed by this step's output), leaves the source cursor and the engine
(pivot) state untouched in the grow handling (they hold exactly what the
engine step itself left), clears the reset flag, and retries (continues)
rather than exiting; the capacity invariant `written ≤ capacity` is
maintained. -/
theorem c4_target_full_growth {σ : Type} (E : Engine σ) (fromE toE : String)
    (s : LState σ) (r : StepRes σ)
    (hstep : E.stepEx fromE toE s.es s.srcRem (s.cap - s.outB.length) s.reset
      s.srcRem.isEmpty = r)
    (hov : r.st = .overflow)
    (hcap : 2 * s.cap + 16 ≤ SIZE_MAX)
    (hinv : s.outB.length ≤ s.cap)
    (hconf : r.prod.length ≤ s.cap - s.outB.length) :
    stepBody E fromE toE s =
      (.cont { es := r.es, srcRem := s.srcRem.drop r.cons, outB := s.outB ++ r.prod,
               cap := 2 * s.cap + 16, reset := false },
       Ev.convExC s.reset s.srcRem.isEmpty s.srcRem.length r.prod.length .overflow)
    ∧ (s.outB ++ r.prod).length ≤ 2 * s.cap + 16
    ∧ growHandle
        ({ es := r.es, srcRem := s.srcRem.drop r.cons, outB := s.outB ++ r.prod,
           cap := s.cap, reset := false } : LState σ) =
      .ok { es := r.es, srcRem := s.srcRem.drop r.cons, outB := s.outB ++ r.prod,
            cap := 2 * s.cap + 16, reset := false } := by
  have hgrow : growHandle
      ({ es := r.es, srcRem := s.srcRem.drop r.cons, outB := s.outB ++ r.prod,
         cap := s.cap, reset := false } : LState σ) =
      .ok { es := r.es, srcRem := s.srcRem.drop r.cons, outB := s.outB ++ r.prod,
            cap := 2 * s.cap + 16, reset := false } := by
    unfold growHandle
    rw [growCap_eq s.cap hcap]
  refine ⟨?_, ?_, hgrow⟩
  · unfold stepBody
    simp only []
    rw [hstep]
    simp only [hov, hgrow]
  · rw [List.length_append]
    omega

/-- Engine whose every streaming step writes one byte, consumes one source
byte, and reports the target full. -/
def EngOver : Engine Unit where
  openOk _ := true
  setToOk _ := true
  setFromOk _ := true
  toUPre _ _ := .ok 0
  toUFill _ _ _ := .ok []
  fromUPre _ _ := .ok 0
  fromUFill _ _ _ := .ok []
  stepEx _ _ _ _ _ _ _ := ⟨(), [7], 1, .overflow⟩
  initState := ()

/-- Witness for C4: a concrete overflow step at capacity 16 with one byte
already written grows to capacity 48 and keeps the written byte. -/
theorem c4_target_full_growth_witness :
    stepBody EngOver "A" "B"
        ({ es := (), srcRem := [9], outB := [1], cap := 16, reset := true } : LState Unit) =
      (.cont { es := (), srcRem := [], outB := [1, 7], cap := 48, reset := false },
       Ev.convExC true false 1 1 .overflow)
    ∧ ([1, 7] : List Nat).length ≤ 48 := by
  have h := c4_target_full_growth EngOver "A" "B"
    ({ es := (), srcRem := [9], outB := [1], cap := 16, reset := true } : LState Unit)
    ⟨(), [7], 1, .overflow⟩ rfl rfl (by decide) (by decide) (by decide)
  exact ⟨h.1, by decide⟩

/-- A nonempty-source check is the same as a zero-length check. -/
theorem isEmpty_eq_decide (l : List Nat) : l.isEmpty = decide (l.length = 0) := by
  cases l <;> simp

/-- Once the reset flag is cleared, no later invocation of the loop passes
reset to the engine. -/
theorem streamLoop_reset_false {σ : Type} (E : Engine σ) (fromE toE : String) :
    ∀ (fuel : Nat) (s : LState σ), s.reset = false →
      ∀ ev ∈ (streamLoop E fromE toE fuel s).2, ev.resetOf = false := by
  intro fuel
  induction fuel with
  | zero =>
    intro s hs ev hev
    simp [streamLoop] at hev
  | succ k ih =>
    intro s hs ev hev
    rcases hsb : stepBody E fromE toE s with ⟨so, ev0⟩
    have hev0 : ev0.resetOf = false := by
      rw [stepBody_snd E fromE toE s so ev0 hsb]
      simp [Ev.resetOf, hs]
    cases so with
    | exit r =>
      simp only [streamLoop, hsb] at hev
      simp at hev
      rw [hev]
      exact hev0
    | cont s2 =>
      simp only [streamLoop, hsb] at hev
      simp at hev
      rcases hev with rfl | hev
      · exact hev0
      · exact ih s2 (stepBody_cont E fromE toE s s2 ev0 hsb).1 ev hev

/-- Every event of the loop records flush = (remaining source length is
zero): the flush flag is passed exactly when the source cursor has reached
the source limit. -/
theorem streamLoop_flush_iff {σ : Type} (E : Engine σ) (fromE toE : String) :
    ∀ (fuel : Nat) (s : LState σ),
      ∀ ev ∈ (streamLoop E fromE toE fuel s).2,
        ev.flushOf = decide (ev.srcLenOf = 0) := by
  intro fuel
  induction fuel with
  | zero =>
    intro s ev hev
    simp [streamLoop] at hev
  | succ k ih =>
    intro s ev hev
    rcases hsb : stepBody E fromE toE s with ⟨so, ev0⟩
    have hev0 : ev0.flushOf = decide (ev0.srcLenOf = 0) := by
      rw [stepBody_snd E fromE toE s so ev0 hsb]
      simp only [Ev.flushOf, Ev.srcLenOf]
      exact isEmpty_eq_decide s.srcRem
    cases so with
    | exit r =>
      simp only [streamLoop, hsb] at hev
      simp at hev
      rw [hev]
      exact hev0
    | cont s2 =>
      simp only [streamLoop, hsb] at hev
      simp at hev
      rcases hev with rfl | hev
      · exact hev0
      · exact ih s2 ev hev

/-- A loop iteration that continues (rather than exiting) is never a flush
step answered with plain success: it is either a buffer-full retry or a
non-flush success. -/
theorem stepBody_cont_not_flush_ok {σ : Type} (E : Engine σ) (fromE toE : String)
    (s s2 : LState σ) (ev : Ev) (h : stepBody E fromE toE s = (.cont s2, ev)) :
    ¬(ev.flushOf = true ∧ ev.statusOf = .ok) := by
  have hev := stepBody_snd E fromE toE s (.cont s2) ev h
  subst hev
  rintro ⟨hfl, hok⟩
  simp only [Ev.flushOf] at hfl
  simp only [Ev.statusOf] at hok
  unfold stepBody at h
  simp only [] at h
  split at h
  · rename_i hst
    rw [hok] at hst
    cases hst
  · cases h
  · split at h
    · cases h
    · rename_i hne
      exact hne (by rw [hfl])

/-- A flush step that the engine answers with success exits the loop with
the bytes written so far. -/
theorem stepBody_flush_ok {σ : Type} (E : Engine σ) (fromE toE : String) (s : LState σ)
    (hsrc : s.srcRem.isEmpty = true)
    (hok : (E.stepEx fromE toE s.es s.srcRem (s.cap - s.outB.length) s.reset
      s.srcRem.isEmpty).st = .ok) :
    stepBody E fromE toE s =
      (.exit (.ok (s.outB ++ (E.stepEx fromE toE s.es s.srcRem (s.cap - s.outB.length)
        s.reset s.srcRem.isEmpty).prod)),
       Ev.convExC s.reset s.srcRem.isEmpty s.srcRem.length
         (E.stepEx fromE toE s.es s.srcRem (s.cap - s.outB.length) s.reset
           s.srcRem.isEmpty).prod.length
         (E.stepEx fromE toE s.es s.srcRem (s.cap - s.outB.length) s.reset
           s.srcRem.isEmpty).st) := by
  unfold stepBody
  simp only []
  rw [hok]
  simp only [hsrc, if_true]

/-- A successful run of the streaming loop ends on a flush step answered
with success, no earlier step is a flush step answered with success, and
the result length is the initial written length plus the total bytes the
engine wrote across all steps. -/
theorem streamLoop_exit_ok {σ : Type} (E : Engine σ) (fromE toE : String) :
    ∀ (fuel : Nat) (s : LState σ) (out : List Nat) (t : List Ev),
      streamLoop E fromE toE fuel s = (some (.ok out), t) →
      (∃ e, t.getLast? = some e ∧ e.flushOf = true ∧ e.statusOf = .ok)
      ∧ (∀ ev ∈ t.dropLast, ¬(ev.flushOf = true ∧ ev.statusOf = .ok))
      ∧ out.length = s.outB.length + (t.map Ev.writtenOf).sum := by
  intro fuel
  induction fuel with
  | zero =>
    intro s out t h
    simp [streamLoop] at h
  | succ k ih =>
    intro s out t h
    rcases hsb : stepBody E fromE toE s with ⟨so, ev0⟩
    cases so with
    | exit r =>
      simp only [streamLoop, hsb] at h
      injection h with h1 h2
      injection h1 with h1
      subst h1
      subst h2
      have hex := stepBody_exit_ok E fromE toE s out ev0 hsb
      obtain ⟨hfl, hok, hout⟩ := hex
      have hev := stepBody_snd E fromE toE s (.exit (.ok out)) ev0 hsb
      refine ⟨⟨ev0, by simp, ?_, ?_⟩, ?_, ?_⟩
      · rw [hev]
        simp only [Ev.flushOf]
        exact hfl
      · rw [hev]
        simp only [Ev.statusOf]
        exact hok
      · intro ev hmem
        simp at hmem
      · rw [hout, hev]
        simp [Ev.writtenOf, List.length_append]
    | cont s2 =>
      simp only [streamLoop, hsb] at h
      rcases hrec : streamLoop E fromE toE k s2 with ⟨r2, t2⟩
      rw [hrec] at h
      injection h with h1 h2
      subst h1
      subst h2
      obtain ⟨⟨e, hlast, he1, he2⟩, hmid, hlen⟩ := ih s2 out t2 hrec
      have ht2ne : t2 ≠ [] := by
        intro hnil
        rw [hnil] at hlast
        simp at hlast
      obtain ⟨b, l, rfl⟩ := List.exists_cons_of_ne_nil ht2ne
      have hcont := stepBody_cont E fromE toE s s2 ev0 hsb
      have hev := stepBody_snd E fromE toE s (.cont s2) ev0 hsb
      refine ⟨⟨e, by simpa using hlast, he1, he2⟩, ?_, ?_⟩
      · intro ev hmem
        simp only [List.dropLast] at hmem
        rcases List.mem_cons.mp hmem with rfl | hmem2
        · exact stepBody_cont_not_flush_ok E fromE toE s s2 ev hsb
        · exact hmid ev (by simpa using hmem2)
      · have hw : ev0.writtenOf = (E.stepEx fromE toE s.es s.srcRem
            (s.cap - s.outB.length) s.reset s.srcRem.isEmpty).prod.length := by
          rw [hev]
          rfl
        have houtB : s2.outB.length = s.outB.length + (E.stepEx fromE toE s.es s.srcRem
            (s.cap - s.outB.length) s.reset s.srcRem.isEmpty).prod.length := by
          rw [hcont.2.1, List.length_append]
        simp only []
        rw [List.map_cons, List.sum_cons]
        omega

/-- Engine whose streaming step consumes one source byte and echoes it,
succeeding every step. -/
def EngEcho : Engine Unit where
  openOk _ := true
  setToOk _ := true
  setFromOk _ := true
  toUPre _ _ := .ok 0
  toUFill _ _ _ := .ok []
  fromUPre _ _ := .ok 0
  fromUFill _ _ _ := .ok []
  stepEx _ _ es src _ _ _ :=
    if src.isEmpty then ⟨es, [], 0, .ok⟩ else ⟨es, src.take 1, 1, .ok⟩
  initState := ()

/-- C5: in every run of the streaming loop started with `reset = true` and
an empty output, the reset flag is passed true on the first invocation and
false on every later one; every invocation's flush flag equals "the
remaining source length is zero"; a successful run ends on a flush
invocation answered with success, with no earlier invocation being a flush
success; the final output length is exactly the total number of bytes the
engine wrote (the trim to the bytes written); and conversely a flush
invocation answered with success always exits the loop. -/
theorem c5_streaming_loop_protocol {σ : Type} (E : Engine σ) (fromE toE : String)
    (fuel : Nat) (s0 : LState σ) (r : Option (Except Err (List Nat))) (t : List Ev)
    (hrun : streamLoop E fromE toE fuel s0 = (r, t))
    (h0 : s0.reset = true) (hout : s0.outB = []) (hfuel : 0 < fuel) :
    (∃ e rest, t = e :: rest ∧ e.resetOf = true ∧ ∀ ev ∈ rest, ev.resetOf = false)
    ∧ (∀ ev ∈ t, ev.flushOf = decide (ev.srcLenOf = 0))
    ∧ (∀ out, r = some (.ok out) →
        (∃ e, t.getLast? = some e ∧ e.flushOf = true ∧ e.statusOf = .ok)
        ∧ (∀ ev ∈ t.dropLast, ¬(ev.flushOf = true ∧ ev.statusOf = .ok))
        ∧ out.length = (t.map Ev.writtenOf).sum)
    ∧ (∀ s : LState σ, s.srcRem.isEmpty = true →
        (E.stepEx fromE toE s.es s.srcRem (s.cap - s.outB.length) s.reset
          s.srcRem.isEmpty).st = .ok →
        ∃ res ev, stepBody E fromE toE s = (.exit (.ok res), ev)
          ∧ res = s.outB ++ (E.stepEx fromE toE s.es s.srcRem (s.cap - s.outB.length)
              s.reset s.srcRem.isEmpty).prod
          ∧ ev.flushOf = true) := by
  refine ⟨?_, ?_, ?_, ?_⟩
  · obtain ⟨k, rfl⟩ := Nat.exists_eq_succ_of_ne_zero (Nat.pos_iff_ne_zero.mp hfuel)
    rcases hsb : stepBody E fromE toE s0 with ⟨so, ev0⟩
    have hev := stepBody_snd E fromE toE s0 so ev0 hsb
    have hev0 : ev0.resetOf = true := by
      rw [hev]
      simp only [Ev.resetOf]
      exact h0
    cases so with
    | exit r0 =>
      simp only [streamLoop, hsb] at hrun
      injection hrun with h1 h2
      exact ⟨ev0, [], h2.symm, hev0, by intro ev hmem; simp at hmem⟩
    | cont s2 =>
      simp only [streamLoop, hsb] at hrun
      injection hrun with h1 h2
      refine ⟨ev0, (streamLoop E fromE toE k s2).2, h2.symm, hev0, ?_⟩
      intro ev hmem
      exact streamLoop_reset_false E fromE toE k s2
        (stepBody_cont E fromE toE s0 s2 ev0 hsb).1 ev hmem
  · intro ev hmem
    have h := streamLoop_flush_iff E fromE toE fuel s0 ev
    rw [hrun] at h
    exact h hmem
  · intro out hro
    subst hro
    have h := streamLoop_exit_ok E fromE toE fuel s0 out t hrun
    refine ⟨h.1, h.2.1, ?_⟩
    have := h.2.2
    rw [hout] at this
    simpa using this
  · intro s hsrc hok
    exact ⟨s.outB ++ (E.stepEx fromE toE s.es s.srcRem (s.cap - s.outB.length)
        s.reset s.srcRem.isEmpty).prod,
      Ev.convExC s.reset s.srcRem.isEmpty s.srcRem.length
        (E.stepEx fromE toE s.es s.srcRem (s.cap - s.outB.length) s.reset
          s.srcRem.isEmpty).prod.length
        (E.stepEx fromE toE s.es s.srcRem (s.cap - s.outB.length) s.reset
          s.srcRem.isEmpty).st,
      stepBody_flush_ok E fromE toE s hsrc hok, rfl, by
        simp only [Ev.flushOf]
        exact hsrc⟩

/-- Witness for C5: a two-iteration run of the loop with the echo engine on
one source byte — first event has reset and no flush, second is the flush
success; the result is the echoed byte. -/
theorem c5_streaming_loop_protocol_witness :
    (∃ e rest, ([Ev.convExC true false 1 1 StStatus.ok,
        Ev.convExC false true 0 0 StStatus.ok] : List Ev) = e :: rest
      ∧ e.resetOf = true ∧ ∀ ev ∈ rest, ev.resetOf = false)
    ∧ ([9] : List Nat).length = (([Ev.convExC true false 1 1 StStatus.ok,
        Ev.convExC false true 0 0 StStatus.ok] : List Ev).map Ev.writtenOf).sum := by
  have h := c5_streaming_loop_protocol EngEcho "A" "B" 2
    ({ es := (), srcRem := [9], outB := [], cap := 16, reset := true } : LState Unit)
    (some (.ok [9]))
    [Ev.convExC true false 1 1 .ok, Ev.convExC false true 0 0 .ok]
    (by decide) rfl rfl (by decide)
  exact ⟨h.1, (h.2.2.1 [9] rfl).2.2⟩

/-- The overflow-checked multiply can only fail with `SizeOverflow`. -/
theorem safe_multiply_error (a b : Nat) (e : Err) (h : safe_multiply a b = .error e) :
    e = .SizeOverflow := by
  unfold safe_multiply at h
  split at h
  · injection h with h1
    exact h1.symm
  · cases h

/-- The overflow-checked add can only fail with `SizeOverflow`. -/
theorem safe_add_error (a b : Nat) (e : Err) (h : safe_add a b = .error e) :
    e = .SizeOverflow := by
  unfold safe_add at h
  split at h
  · injection h with h1
    exact h1.symm
  · cases h

/-- The capacity-growth computation can only fail with `SizeOverflow`. -/
theorem growCap_error (c : Nat) (e : Err) (h : growCap c = .error e) :
    e = .SizeOverflow := by
  unfold growCap at h
  split at h
  · rename_i e2 heq
    injection h with h1
    rw [← h1]
    exact safe_multiply_error c 2 e2 heq
  · rename_i m heq
    exact safe_add_error m 16 e h

/-- Converter acquisition can only fail with `UnknownEncoding` or
`ConfigurationFailed`. -/
theorem acquireConv_error {σ : Type} (E : Engine σ) (name : String) (e : Err)
    (t : List Ev) (h : acquireConv E name = (.error e, t)) :
    e = .UnknownEncoding ∨ e = .ConfigurationFailed := by
  unfold acquireConv at h
  split at h
  · split at h
    · split at h
      · cases h
      · injection h with h1 h2
        injection h1 with h1
        exact Or.inr h1.symm
    · injection h with h1 h2
      injection h1 with h1
      exact Or.inr h1.symm
  · injection h with h1 h2
    injection h1 with h1
    exact Or.inl h1.symm

/-- A loop iteration can only exit with `SizeOverflow` (failed growth) or
`StreamConversionFailed` (engine failure) as its error. -/
theorem stepBody_exit_error {σ : Type} (E : Engine σ) (fromE toE : String)
    (s : LState σ) (e : Err) (ev : Ev)
    (h : stepBody E fromE toE s = (.exit (.error e), ev)) :
    e = .SizeOverflow ∨ e = .StreamConversionFailed := by
  unfold stepBody at h
  simp only [] at h
  split at h
  · split at h
    · rename_i e2 hge
      injection h with h1 h2
      injection h1 with h1
      injection h1 with h1
      refine Or.inl ?_
      rw [← h1]
      unfold growHandle at hge
      split at hge
      · rename_i e3 heq
        injection hge with h3
        rw [← h3]
        exact growCap_error _ e3 heq
      · cases hge
    · cases h
  · injection h with h1 h2
    injection h1 with h1
    injection h1 with h1
    exact Or.inr h1.symm
  · split at h
    · injection h with h1 h2
      injection h1 with h1
      cases h1
    · cases h

/-- The streaming loop never fails with `SizeExceeded`: no narrowing check
exists on the streaming path. -/
theorem streamLoop_no_sizeExceeded {σ : Type} (E : Engine σ) (fromE toE : String) :
    ∀ (fuel : Nat) (s : LState σ),
      (streamLoop E fromE toE fuel s).1 ≠ some (.error .SizeExceeded) := by
  intro fuel
  induction fuel with
  | zero =>
    intro s
    simp [streamLoop]
  | succ k ih =>
    intro s
    rcases hsb : stepBody E fromE toE s with ⟨so, ev0⟩
    cases so with
    | exit r =>
      simp only [streamLoop, hsb]
      intro hcontra
      simp at hcontra
      cases r with
      | ok out => cases hcontra
      | error e =>
        injection hcontra with h1
        rcases stepBody_exit_error E fromE toE s e ev0 (by rw [hsb, h1]) with h | h <;>
          simp [h1] at h
    | cont s2 =>
      simp only [streamLoop, hsb]
      exact ih s2

/-- The streaming conversion body never fails with `SizeExceeded`. -/
theorem streamGo_no_sizeExceeded {σ : Type} (E : Engine σ) (fuel : Nat)
    (src : List Nat) (fromE toE : String) (initCap : Nat) :
    (streamGo E fuel src fromE toE initCap).1 ≠ some (.error .SizeExceeded) := by
  unfold streamGo
  rcases h1 : acquireConv E fromE with ⟨r1, t1⟩
  cases r1 with
  | error e =>
    intro hcontra
    simp at hcontra
    rcases acquireConv_error E fromE e t1 h1 with h | h <;> rw [h] at hcontra <;>
      cases hcontra
  | ok u =>
    rcases h2 : acquireConv E toE with ⟨r2, t2⟩
    cases r2 with
    | error e =>
      intro hcontra
      simp at hcontra
      rcases acquireConv_error E toE e t2 h2 with h | h <;> rw [h] at hcontra <;>
        cases hcontra
    | ok u2 =>
      rcases h3 : streamLoop E fromE toE fuel
        { es := E.initState, srcRem := src, outB := [],
          cap := if initCap < 16 then 16 else initCap, reset := true } with ⟨r3, t3⟩
      cases r3 with
      | none =>
        intro hcontra
        simp only [] at hcontra
        rw [h3] at hcontra
        simp at hcontra
      | some r =>
        intro hcontra
        simp only [] at hcontra
        rw [h3] at hcontra
        simp at hcontra
        have := streamLoop_no_sizeExceeded E fromE toE fuel
          { es := E.initState, srcRem := src, outB := [],
            cap := if initCap < 16 then 16 else initCap, reset := true }
        rw [h3] at this
        simp at this
        exact this hcontra

/-- C1 (amended): the two-pass entry points (all explicit-length shapes)
fail with `SizeExceeded` before any endpoint call (empty trace) whenever the
declared input length exceeds `2^31 - 1`; the streaming entry points perform
no narrowing check and can never fail with `SizeExceeded` — their only size
guards are the overflow-checked multiply/add on the initial-capacity guess,
which fail with `SizeOverflow`. -/
theorem c1_size_exceeded_paths {σ : Type} (E : Engine σ) :
    (∀ (n : Nat) (f t : String), INT32_MAX < n →
      convert_encoding_view E (Buf.nullBuf n) f t = (.error .SizeExceeded, [])
      ∧ convert_encoding_ptrlen E (Buf.nullBuf n) f t = (.error .SizeExceeded, []))
    ∧ (∀ (mem : List Nat) (f t : String), INT32_MAX < mem.length →
      convert_encoding_view E (Buf.valid mem) f t = (.error .SizeExceeded, [])
      ∧ convert_encoding_ptrlen E (Buf.valid mem) f t = (.error .SizeExceeded, [])
      ∧ to_utf8_view E (Buf.valid mem) f = (.error .SizeExceeded, [])
      ∧ from_utf8_view E (Buf.valid mem) t = (.error .SizeExceeded, [])
      ∧ big5_to_utf8 E (Buf.valid mem) = (.error .SizeExceeded, [])
      ∧ utf8_to_big5 E (Buf.valid mem) = (.error .SizeExceeded, []))
    ∧ (∀ (fuel : Nat) (input : Buf),
      (big5_to_utf8_dr E fuel input).1 ≠ some (.error .SizeExceeded)
      ∧ (utf8_to_big5_dr E fuel input).1 ≠ some (.error .SizeExceeded)) := by
  have hstream : ∀ (fuel : Nat) (input : Buf) (fromE toE : String) (initCap : Nat),
      (convert_encoding_streaming E fuel input fromE toE initCap).1
        ≠ some (.error .SizeExceeded) := by
    intro fuel input fromE toE initCap
    cases input with
    | nullBuf n =>
      rcases Nat.eq_zero_or_pos n with rfl | hn
      · simp only [convert_encoding_streaming]
        rw [if_neg (by omega)]
        exact streamGo_no_sizeExceeded E fuel [] fromE toE initCap
      · simp only [convert_encoding_streaming]
        rw [if_pos (by omega)]
        intro hcontra
        simp at hcontra
    | valid bytes =>
      exact streamGo_no_sizeExceeded E fuel bytes fromE toE initCap
  refine ⟨?_, ?_, ?_⟩
  · intro n f t hn
    have hnar := narrow_err n hn
    constructor <;>
      simp [convert_encoding_view, convert_encoding_ptrlen, Buf.size, hnar]
  · intro mem f t hn
    have hnar := narrow_err mem.length hn
    refine ⟨?_, ?_, ?_, ?_, ?_, ?_⟩ <;>
      simp [convert_encoding_view, convert_encoding_ptrlen, to_utf8_view, from_utf8_view,
        big5_to_utf8, utf8_to_big5, Buf.size, hnar]
  · intro fuel input
    constructor
    · unfold big5_to_utf8_dr
      rcases hm : safe_multiply input.size 3 with e | m
      · have he := safe_multiply_error input.size 3 e hm
        subst he
        simp [hm]
      · rcases ha : safe_add m 16 with e | g
        · have he := safe_add_error m 16 e ha
          subst he
          simp [hm, ha]
        · simp only [hm, ha]
          exact hstream fuel input "Big5" "UTF-8" g
    · unfold utf8_to_big5_dr
      rcases hm : safe_multiply input.size 2 with e | m
      · have he := safe_multiply_error input.size 2 e hm
        subst he
        simp [hm]
      · rcases ha : safe_add m 16 with e | g
        · have he := safe_add_error m 16 e ha
          subst he
          simp [hm, ha]
        · simp only [hm, ha]
          exact hstream fuel input "UTF-8" "Big5" g

/-- With an engine whose `ucnv_open` fails, a streaming conversion call on
any valid buffer of declared length `2^31` (one past the narrowing bound)
passes the size guards and reaches the endpoint call, failing with
`UnknownEncoding` — not `SizeExceeded`. -/
theorem c1_streaming_reaches_endpoint (mem : List Nat) (hlen : mem.length = 2 ^ 31) :
    (big5_to_utf8_dr EngOpenFail 1 (Buf.valid mem)).1 = some (.error .UnknownEncoding) := by
  have hsize : (Buf.valid mem).size = 2 ^ 31 := hlen
  have hmul : safe_multiply (2 ^ 31) 3 = .ok (2 ^ 31 * 3) := mul_ok _ _ (by decide)
  have hadd : safe_add (2 ^ 31 * 3) 16 = .ok (2 ^ 31 * 3 + 16) := add_ok _ _ (by decide)
  have ha1 : acquireConv EngOpenFail "Big5"
      = (.error .UnknownEncoding, [Ev.openC "Big5" false]) := rfl
  unfold big5_to_utf8_dr
  rw [hsize]
  simp only [hmul, hadd]
  unfold convert_encoding_streaming streamGo
  rw [ha1]

/-- Counterexample to C1 as stated: a streaming conversion call whose
declared input length is `2^31` (one past the bound `2^31 - 1`) does not
fail with `SizeExceeded` — with an engine whose `ucnv_open` fails it reaches
the endpoint call and fails with `UnknownEncoding` instead, so the
narrowing check is never applied on the streaming path. -/
theorem c1_counterexample :
    (big5_to_utf8_dr EngOpenFail 1 (Buf.valid (List.replicate (2 ^ 31) 1))).1
      = some (.error .UnknownEncoding) :=
  c1_streaming_reaches_endpoint (List.replicate (2 ^ 31) 1) (by rw [List.length_replicate])

/-- Witness for C1 (amended): the explicit-length shape at declared length
`2^31` fails with `SizeExceeded` with an empty trace, while a small
streaming call does not produce `SizeExceeded`. -/
theorem c1_size_exceeded_paths_witness :
    convert_encoding_view EngTriv (Buf.nullBuf (2 ^ 31)) "X" "Y"
      = (.error .SizeExceeded, [])
    ∧ (big5_to_utf8_dr EngTriv 1 (Buf.valid [1])).1 ≠ some (.error .SizeExceeded) := by
  have h := c1_size_exceeded_paths EngTriv
  exact ⟨(h.1 (2 ^ 31) "X" "Y" (by decide)).1, (h.2.2 1 (Buf.valid [1])).1⟩

/-- Pure per-encoding-pair view of the engine's tables: `toU` decodes bytes
of a named encoding into UTF-16 code units, `fromU` encodes code units into
bytes of a named encoding; `none` is a conversion failure (malformed or
unmappable content).  This is the spec's section 6 black-box contract in
pure form; both the two-pass primitives and the streaming step of a
coherent engine are induced from it. -/
structure PureConv where
  toU : String → List Nat → Option (List Nat)
  fromU : String → List Nat → Option (List Nat)

/-- Streaming-side internal state of an induced engine: whether the source
has been consumed and converted yet, and the converted bytes not yet
written to the caller's target buffer (the pivot backlog). -/
structure PState where
  processed : Bool
  pending : List Nat
  deriving DecidableEq, Repr

/-- The engine induced by a pure conversion table: opens always succeed;
`ucnv_toUChars`/`ucnv_fromUChars` measure and fill from the table (the fill
fails when the provided capacity is insufficient, as ICU's would); one
`ucnv_convertEx` step consumes all remaining source on first contact,
converts it through the table, and hands out as many bytes as fit in the
available target capacity, reporting buffer-overflow while a backlog
remains. -/
def induceEngine (p : PureConv) : Engine PState where
  openOk _ := true
  setToOk _ := true
  setFromOk _ := true
  toUPre enc b :=
    match p.toU enc b with
    | some u => .ok u.length
    | none => .error ()
  toUFill enc b cap :=
    match p.toU enc b with
    | some u => if u.length < cap then .ok u else .error ()
    | none => .error ()
  fromUPre enc u :=
    match p.fromU enc u with
    | some b => .ok b.length
    | none => .error ()
  fromUFill enc u cap :=
    match p.fromU enc u with
    | some b => if b.length ≤ cap then .ok b else .error ()
    | none => .error ()
  stepEx fromE toE st src avail _ _ :=
    if st.processed then
      ⟨⟨true, st.pending.drop avail⟩, st.pending.take avail, 0,
        if st.pending.length ≤ avail then .ok else .overflow⟩
    else
      match (p.toU fromE src).bind (p.fromU toE) with
      | none => ⟨st, [], 0, .fail⟩
      | some out =>
        ⟨⟨true, out.drop avail⟩, out.take avail, src.length,
          if out.length ≤ avail then .ok else .overflow⟩
  initState := ⟨false, []⟩

/-- The identity conversion table: every encoding maps bytes to themselves. -/
def idPC : PureConv where
  toU _ b := some b
  fromU _ u := some u

/-- The two-pass core over an induced engine computes exactly the pure
table composition decode-then-encode. -/
theorem implCore_induced (p : PureConv) (eff : List Nat) (f t : String) :
    (implCore (induceEngine p) eff f t).1 =
      match p.toU f eff with
      | none => .error .DecodeFailed
      | some u =>
        match p.fromU t u with
        | none => .error .EncodeFailed
        | some b => .ok b := by
  cases htu : p.toU f eff with
  | none =>
    simp [implCore, acquireConv, induceEngine, htu]
  | some u =>
    cases hfu : p.fromU t u with
    | none =>
      simp [implCore, acquireConv, induceEngine, htu, hfu]
    | some b =>
      simp [implCore, acquireConv, induceEngine, htu, hfu, Nat.lt_succ_self,
        List.take_of_length_le (Nat.le_refl b.length)]

/-- Induced engine step in the not-yet-processed state with convertible
content. -/
theorem induced_step_unproc (p : PureConv) (fromE toE : String) (st : PState)
    (src : List Nat) (avail : Nat) (rst fl : Bool) (out : List Nat)
    (hproc : st.processed = false)
    (hb : (p.toU fromE src).bind (p.fromU toE) = some out) :
    (induceEngine p).stepEx fromE toE st src avail rst fl =
      ⟨⟨true, out.drop avail⟩, out.take avail, src.length,
        if out.length ≤ avail then .ok else .overflow⟩ := by
  simp [induceEngine, hproc, hb]

/-- Induced engine step in the not-yet-processed state with unconvertible
content. -/
theorem induced_step_unproc_fail (p : PureConv) (fromE toE : String) (st : PState)
    (src : List Nat) (avail : Nat) (rst fl : Bool)
    (hproc : st.processed = false)
    (hb : (p.toU fromE src).bind (p.fromU toE) = none) :
    (induceEngine p).stepEx fromE toE st src avail rst fl = ⟨st, [], 0, .fail⟩ := by
  simp [induceEngine, hproc, hb]

/-- Induced engine step in the processed state drains the backlog. -/
theorem induced_step_proc (p : PureConv) (fromE toE : String) (st : PState)
    (src : List Nat) (avail : Nat) (rst fl : Bool)
    (hproc : st.processed = true) :
    (induceEngine p).stepEx fromE toE st src avail rst fl =
      ⟨⟨true, st.pending.drop avail⟩, st.pending.take avail, 0,
        if st.pending.length ≤ avail then .ok else .overflow⟩ := by
  simp [induceEngine, hproc]

/-- A continuing loop iteration comes from a buffer-full step or a
non-flush success. -/
theorem stepBody_cont_status {σ : Type} (E : Engine σ) (fromE toE : String)
    (s s2 : LState σ) (ev : Ev) (h : stepBody E fromE toE s = (.cont s2, ev)) :
    (E.stepEx fromE toE s.es s.srcRem (s.cap - s.outB.length) s.reset
      s.srcRem.isEmpty).st = .overflow
    ∨ ((E.stepEx fromE toE s.es s.srcRem (s.cap - s.outB.length) s.reset
      s.srcRem.isEmpty).st = .ok ∧ s.srcRem.isEmpty = false) := by
  unfold stepBody at h
  simp only [] at h
  split at h
  · rename_i hst
    exact Or.inl hst
  · cases h
  · rename_i hst
    split at h
    · cases h
    · rename_i hfl
      exact Or.inr ⟨hst, by simpa using hfl⟩

/-- Invariant of a streaming run over an induced engine: before the first
real step the state is fresh with the whole input pending as source; after
it, the source is fully consumed and the written bytes followed by the
pivot backlog are exactly the pure-table conversion of the input. -/
def InvP (p : PureConv) (fromE toE : String) (bytes : List Nat)
    (s : LState PState) : Prop :=
  (s.es.processed = false ∧ s.outB = [] ∧ s.srcRem = bytes)
  ∨ (s.es.processed = true ∧ s.srcRem = []
      ∧ ∃ out, (p.toU fromE bytes).bind (p.fromU toE) = some out
          ∧ s.outB ++ s.es.pending = out)

/-- One continuing iteration preserves the induced-run invariant. -/
theorem stepBody_induced_inv (p : PureConv) (fromE toE : String) (bytes : List Nat)
    (s s2 : LState PState) (ev : Ev)
    (hinv : InvP p fromE toE bytes s)
    (h : stepBody (induceEngine p) fromE toE s = (.cont s2, ev)) :
    InvP p fromE toE bytes s2 := by
  have hcont := stepBody_cont (induceEngine p) fromE toE s s2 ev h
  have hstat := stepBody_cont_status (induceEngine p) fromE toE s s2 ev h
  rcases hinv with ⟨hproc, houtB, hsrc⟩ | ⟨hproc, hsrc, out, hb, hsum⟩
  · cases hb : (p.toU fromE s.srcRem).bind (p.fromU toE) with
    | none =>
      have hstep := induced_step_unproc_fail p fromE toE s.es s.srcRem
        (s.cap - s.outB.length) s.reset s.srcRem.isEmpty hproc hb
      rw [hstep] at hstat
      rcases hstat with hst | ⟨hst, _⟩ <;> cases hst
    | some out =>
      have hstep := induced_step_unproc p fromE toE s.es s.srcRem
        (s.cap - s.outB.length) s.reset s.srcRem.isEmpty out hproc hb
      rw [hstep] at hcont
      refine Or.inr ⟨?_, ?_, out, ?_, ?_⟩
      · rw [hcont.2.2.2]
      · rw [hcont.2.2.1]
        simp
      · rw [← hsrc]
        exact hb
      · rw [hcont.2.1, hcont.2.2.2, houtB]
        simp
  · have hstep := induced_step_proc p fromE toE s.es s.srcRem
      (s.cap - s.outB.length) s.reset s.srcRem.isEmpty hproc
    rw [hstep] at hcont
    refine Or.inr ⟨?_, ?_, out, hb, ?_⟩
    · rw [hcont.2.2.2]
    · rw [hcont.2.2.1, hsrc]
      simp
    · rw [hcont.2.1, hcont.2.2.2, ← hsum]
      simp

/-- A successful exit of a loop iteration over an induced engine yields
exactly the pure-table conversion of the whole input. -/
theorem stepBody_induced_exit (p : PureConv) (fromE toE : String) (bytes : List Nat)
    (s : LState PState) (r : List Nat) (ev : Ev)
    (hinv : InvP p fromE toE bytes s)
    (h : stepBody (induceEngine p) fromE toE s = (.exit (.ok r), ev)) :
    (p.toU fromE bytes).bind (p.fromU toE) = some r := by
  obtain ⟨hfl, hok, hr⟩ := stepBody_exit_ok (induceEngine p) fromE toE s r ev h
  rcases hinv with ⟨hproc, houtB, hsrc⟩ | ⟨hproc, hsrc, out, hb, hsum⟩
  · cases hb : (p.toU fromE s.srcRem).bind (p.fromU toE) with
    | none =>
      have hstep := induced_step_unproc_fail p fromE toE s.es s.srcRem
        (s.cap - s.outB.length) s.reset s.srcRem.isEmpty hproc hb
      rw [hstep] at hok
      cases hok
    | some out =>
      have hstep := induced_step_unproc p fromE toE s.es s.srcRem
        (s.cap - s.outB.length) s.reset s.srcRem.isEmpty out hproc hb
      rw [hstep] at hok hr
      have hle : out.length ≤ s.cap - s.outB.length := by
        by_cases hle : out.length ≤ s.cap - s.outB.length
        · exact hle
        · rw [if_neg hle] at hok
          cases hok
      rw [← hsrc, hb, hr]
      simp only []
      rw [List.take_of_length_le hle, houtB]
      simp
  · have hstep := induced_step_proc p fromE toE s.es s.srcRem
      (s.cap - s.outB.length) s.reset s.srcRem.isEmpty hproc
    rw [hstep] at hok hr
    have hle : s.es.pending.length ≤ s.cap - s.outB.length := by
      by_cases hle : s.es.pending.length ≤ s.cap - s.outB.length
      · exact hle
      · rw [if_neg hle] at hok
        cases hok
    rw [hb, hr]
    simp only []
    rw [List.take_of_length_le hle, hsum]

/-- A terminating successful run of the streaming loop over an induced
engine returns exactly the pure-table conversion of the input. -/
theorem streamLoop_induced_ok (p : PureConv) (fromE toE : String) (bytes : List Nat) :
    ∀ (fuel : Nat) (s : LState PState), InvP p fromE toE bytes s →
      ∀ (r : List Nat) (t : List Ev),
        streamLoop (induceEngine p) fromE toE fuel s = (some (.ok r), t) →
        (p.toU fromE bytes).bind (p.fromU toE) = some r := by
  intro fuel
  induction fuel with
  | zero =>
    intro s hinv r t hrun
    simp [streamLoop] at hrun
  | succ k ih =>
    intro s hinv r t hrun
    rcases hsb : stepBody (induceEngine p) fromE toE s with ⟨so, ev0⟩
    cases so with
    | exit r0 =>
      simp only [streamLoop, hsb] at hrun
      injection hrun with h1 h2
      injection h1 with h1
      subst h1
      exact stepBody_induced_exit p fromE toE bytes s r ev0 hinv hsb
    | cont s2 =>
      simp only [streamLoop, hsb] at hrun
      rcases hrec : streamLoop (induceEngine p) fromE toE k s2 with ⟨r2, t2⟩
      rw [hrec] at hrun
      injection hrun with h1 h2
      subst h1
      exact ih s2 (stepBody_induced_inv p fromE toE bytes s s2 ev0 hinv hsb) r t2 hrec

/-- An explicit in-range length is the identity on the effective bytes. -/
theorem effBytes_ofNat_len (bytes : List Nat) :
    effBytes bytes (Int.ofNat bytes.length) = bytes := by
  unfold effBytes
  have hne : (Int.ofNat bytes.length) ≠ -1 := by
    intro hcontra
    have h0 : (0 : Int) ≤ Int.ofNat bytes.length := Int.ofNat_nonneg bytes.length
    rw [hcontra] at h0
    norm_num at h0
  have htn : (Int.ofNat bytes.length).toNat = bytes.length := rfl
  rw [if_neg hne, htn, List.take_length]

/-- The two-pass view entry point over an induced engine computes exactly
the pure-table composition decode-then-encode. -/
theorem view_induced (p : PureConv) (bytes : List Nat) (f t : String)
    (hlen : bytes.length ≤ INT32_MAX) :
    (convert_encoding_view (induceEngine p) (Buf.valid bytes) f t).1 =
      match p.toU f bytes with
      | none => .error .DecodeFailed
      | some u =>
        match p.fromU t u with
        | none => .error .EncodeFailed
        | some b => .ok b := by
  unfold convert_encoding_view
  rw [show safe_size_to_int32 (Buf.valid bytes).size = .ok bytes.length from
    narrow_ok bytes.length hlen]
  simp only [convert_encoding_impl]
  rw [effBytes_ofNat_len]
  exact implCore_induced p bytes f t

/-- `to_utf8` over a view is `convert_encoding` with UTF-8 target. -/
theorem to_utf8_view_eq {σ : Type} (E : Engine σ) (input : Buf) (f : String) :
    to_utf8_view E input f = convert_encoding_view E input f "UTF-8" := rfl

/-- `from_utf8` over a view is `convert_encoding` with UTF-8 source. -/
theorem from_utf8_view_eq {σ : Type} (E : Engine σ) (input : Buf) (t : String) :
    from_utf8_view E input t = convert_encoding_view E input "UTF-8" t := rfl

/-- A terminating successful streaming conversion over an induced engine
returns exactly the pure-table composition. -/
theorem streaming_induced_ok (p : PureConv) (fuel : Nat) (bytes : List Nat)
    (fromE toE : String) (initCap : Nat) (r : List Nat)
    (h : (convert_encoding_streaming (induceEngine p) fuel (Buf.valid bytes)
      fromE toE initCap).1 = some (.ok r)) :
    (p.toU fromE bytes).bind (p.fromU toE) = some r := by
  have hacq : ∀ name, acquireConv (induceEngine p) name
      = (.ok (), [Ev.openC name true]) := fun name => rfl
  unfold convert_encoding_streaming streamGo at h
  rw [hacq fromE, hacq toE] at h
  simp only [] at h
  rcases hl : streamLoop (induceEngine p) fromE toE fuel
      { es := (induceEngine p).initState, srcRem := bytes, outB := [],
        cap := if initCap < 16 then 16 else initCap, reset := true } with ⟨rl, tl⟩
  rw [hl] at h
  cases rl with
  | none => simp at h
  | some r2 =>
    simp only [] at h
    injection h with h1
    rw [h1] at hl
    exact streamLoop_induced_ok p fromE toE bytes fuel
      { es := (induceEngine p).initState, srcRem := bytes, outB := [],
        cap := if initCap < 16 then 16 else initCap, reset := true }
      (Or.inl ⟨rfl, rfl, rfl⟩) r tl hl

/-- A terminating successful `big5_to_utf8_dr` over an induced engine
returns the pure-table composition for Big5 to UTF-8. -/
theorem big5_dr_induced_ok (p : PureConv) (fuel : Nat) (bytes : List Nat) (r : List Nat)
    (h : (big5_to_utf8_dr (induceEngine p) fuel (Buf.valid bytes)).1 = some (.ok r)) :
    (p.toU "Big5" bytes).bind (p.fromU "UTF-8") = some r := by
  unfold big5_to_utf8_dr at h
  rcases hm : safe_multiply (Buf.valid bytes).size 3 with e | m
  · rw [hm] at h
    simp at h
  · rw [hm] at h
    simp only [] at h
    rcases ha : safe_add m 16 with e | g
    · rw [ha] at h
      simp at h
    · rw [ha] at h
      simp only [] at h
      exact streaming_induced_ok p fuel bytes "Big5" "UTF-8" g r h

/-- A terminating successful `utf8_to_big5_dr` over an induced engine
returns the pure-table composition for UTF-8 to Big5. -/
theorem utf8_dr_induced_ok (p : PureConv) (fuel : Nat) (bytes : List Nat) (r : List Nat)
    (h : (utf8_to_big5_dr (induceEngine p) fuel (Buf.valid bytes)).1 = some (.ok r)) :
    (p.toU "UTF-8" bytes).bind (p.fromU "Big5") = some r := by
  unfold utf8_to_big5_dr at h
  rcases hm : safe_multiply (Buf.valid bytes).size 2 with e | m
  · rw [hm] at h
    simp at h
  · rw [hm] at h
    simp only [] at h
    rcases ha : safe_add m 16 with e | g
    · rw [ha] at h
      simp at h
    · rw [ha] at h
      simp only [] at h
      exact streaming_induced_ok p fuel bytes "UTF-8" "Big5" g r h

/-- A successful two-pass Big5 conversion over an induced engine computes
the pure-table composition (and in particular the length fits the bound,
else the narrowing would have failed). -/
theorem twopass_ok_bind (p : PureConv) (bytes : List Nat) (f t : String) (r : List Nat)
    (h : (convert_encoding_view (induceEngine p) (Buf.valid bytes) f t).1 = .ok r) :
    (p.toU f bytes).bind (p.fromU t) = some r := by
  by_cases hlen : bytes.length ≤ INT32_MAX
  · rw [view_induced p bytes f t hlen] at h
    cases htu : p.toU f bytes with
    | none =>
      rw [htu] at h
      cases h
    | some u =>
      rw [htu] at h
      simp only [] at h
      cases hfu : p.fromU t u with
      | none =>
        rw [hfu] at h
        simp at h
      | some b =>
        rw [hfu] at h
        simp only [] at h
        injection h with h1
        simp [hfu, h1]
  · exfalso
    have hnar := narrow_err bytes.length (by omega)
    unfold convert_encoding_view at h
    rw [show safe_size_to_int32 (Buf.valid bytes).size
        = .error .SizeExceeded from hnar] at h
    cases h

/-- C8: over any engine induced coherently from one pure conversion table,
whenever the two-pass and the streaming Big5 conveniences both succeed on
the same input, they return byte-identical results — in both directions. -/
theorem c8_strategy_equivalence (p : PureConv) (bytes : List Nat) :
    (∀ (fuel : Nat) (r r2 : List Nat),
      (big5_to_utf8 (induceEngine p) (Buf.valid bytes)).1 = .ok r →
      (big5_to_utf8_dr (induceEngine p) fuel (Buf.valid bytes)).1 = some (.ok r2) →
      r = r2)
    ∧ (∀ (fuel : Nat) (r r2 : List Nat),
      (utf8_to_big5 (induceEngine p) (Buf.valid bytes)).1 = .ok r →
      (utf8_to_big5_dr (induceEngine p) fuel (Buf.valid bytes)).1 = some (.ok r2) →
      r = r2) := by
  constructor
  · intro fuel r r2 h1 h2
    have hb1 : (p.toU "Big5" bytes).bind (p.fromU "UTF-8") = some r := by
      apply twopass_ok_bind p bytes "Big5" "UTF-8" r
      rw [← to_utf8_view_eq]
      exact h1
    have hb2 := big5_dr_induced_ok p fuel bytes r2 h2
    rw [hb1] at hb2
    injection hb2
  · intro fuel r r2 h1 h2
    have hb1 : (p.toU "UTF-8" bytes).bind (p.fromU "Big5") = some r := by
      apply twopass_ok_bind p bytes "UTF-8" "Big5" r
      rw [← from_utf8_view_eq]
      exact h1
    have hb2 := utf8_dr_induced_ok p fuel bytes r2 h2
    rw [hb1] at hb2
    injection hb2

/-- Witness for C8: the identity table on the single byte 65 — both
strategies succeed and return the same bytes. -/
theorem c8_strategy_equivalence_witness :
    (big5_to_utf8 (induceEngine idPC) (Buf.valid [65])).1 = .ok [65]
    ∧ (big5_to_utf8_dr (induceEngine idPC) 2 (Buf.valid [65])).1 = some (.ok [65])
    ∧ ([65] : List Nat) = [65] :=
  ⟨by decide, by decide,
    (c8_strategy_equivalence idPC [65]).1 2 [65] [65] (by decide) (by decide)⟩

/-- C9: over any engine induced from a pure conversion table whose Big5
tables invert on the given content (the engine-level round-trip property
defining "representable in Big5"), the library round-trips exactly:
two-pass `utf8_to_big5` then `big5_to_utf8` returns the original bytes, and
the streaming variants agree whenever they terminate — in both directions
(the same four hypotheses express the valid-Big5-input direction with the
roles of `s` and `b` exchanged). -/
theorem c9_round_trip (p : PureConv) (s u b u2 : List Nat)
    (h1 : p.toU "UTF-8" s = some u) (h2 : p.fromU "Big5" u = some b)
    (h3 : p.toU "Big5" b = some u2) (h4 : p.fromU "UTF-8" u2 = some s)
    (hs : s.length ≤ INT32_MAX) (hb : b.length ≤ INT32_MAX) :
    (utf8_to_big5 (induceEngine p) (Buf.valid s)).1 = .ok b
    ∧ (big5_to_utf8 (induceEngine p) (Buf.valid b)).1 = .ok s
    ∧ (∀ (fuel : Nat) (m : List Nat),
        (utf8_to_big5_dr (induceEngine p) fuel (Buf.valid s)).1 = some (.ok m) → m = b)
    ∧ (∀ (fuel : Nat) (m : List Nat),
        (big5_to_utf8_dr (induceEngine p) fuel (Buf.valid b)).1 = some (.ok m) → m = s) := by
  refine ⟨?_, ?_, ?_, ?_⟩
  · show (from_utf8_view (induceEngine p) (Buf.valid s) "Big5").1 = .ok b
    rw [from_utf8_view_eq, view_induced p s "UTF-8" "Big5" hs, h1]
    simp only []
    rw [h2]
  · show (to_utf8_view (induceEngine p) (Buf.valid b) "Big5").1 = .ok s
    rw [to_utf8_view_eq, view_induced p b "Big5" "UTF-8" hb, h3]
    simp only []
    rw [h4]
  · intro fuel m hm
    have := utf8_dr_induced_ok p fuel s m hm
    rw [h1] at this
    simp only [Option.bind] at this
    rw [h2] at this
    injection this with h5
    exact h5.symm
  · intro fuel m hm
    have := big5_dr_induced_ok p fuel b m hm
    rw [h3] at this
    simp only [Option.bind] at this
    rw [h4] at this
    injection this with h5
    exact h5.symm

/-- Witness for C9: the identity table on the single byte 65 round-trips in
both variants. -/
theorem c9_round_trip_witness :
    (utf8_to_big5 (induceEngine idPC) (Buf.valid [65])).1 = .ok [65]
    ∧ (big5_to_utf8 (induceEngine idPC) (Buf.valid [65])).1 = .ok [65] := by
  have h := c9_round_trip idPC [65] [65] [65] [65] rfl rfl rfl rfl (by decide) (by decide)
  exact ⟨h.1, h.2.1⟩
